import Mathlib

/-!
Verification development for the photon-server-nodejs repository.

The definitions below are shallow embeddings of the JavaScript sources:

* `src/protocol/PhotonSerializer.js` (in `src/src/index.js`) — `writePhotonType`
  and its helpers, embedded as `writePhotonType : JVal → Option (List Nat)`
  producing the byte stream (`none` models a thrown `RangeError` from a
  Node `Buffer` write validation);
* `src/protocol/PhotonParser.js` (in `src/src/index.js`) — `parsePhotonType`
  and its helpers, embedded as a fuel-indexed state-passing parser
  (`none` models a thrown `RangeError` from a `DataView` bounds check;
  the fuel only bounds the recursion depth, which in the JS source is the
  call stack);
* `src/core/PhotonRoom.js` — the room state machine (`addPeer`, `removePeer`,
  master-client management, `shouldCleanup`);
* `src/core/PhotonServer.js` and the enterprise variant concatenated into
  `src/handlers/OperationHandler.js` — the room registry (`createRoom`,
  `removeRoom`), the cleanup tick and the incoming-data path;
* `src/handlers/OperationHandler.js` and the enterprise variant in
  `src/unnamed/part_000` — the operation handlers for Authenticate and
  JoinRoom.

JavaScript numbers that the code only ever treats as integers are embedded
as `Int`/`Nat`; IEEE-754 float payloads are kept as raw 32/64-bit patterns
(`Nat`), which is enough because no claim below inspects float arithmetic.
JS strings are represented by their UTF-8 byte lists.
-/

namespace Photon

/-! ## Protocol constants

`src/protocol/constants.js` itself is not part of the source snapshot; the
type-tag values below are the ones listed in `src/README.md` ("Protocol
Support") and used literally by the parser and serializer sources. -/

def TAG_NULL : Nat := 0x2A
def TAG_DICTIONARY : Nat := 0x44
def TAG_STRING_ARRAY : Nat := 0x61
def TAG_BYTE : Nat := 0x62
def TAG_CUSTOM_DATA : Nat := 0x63
def TAG_DOUBLE : Nat := 0x64
def TAG_FLOAT : Nat := 0x66
def TAG_HASH_TABLE : Nat := 0x68
def TAG_INTEGER : Nat := 0x69
def TAG_SHORT : Nat := 0x6B
def TAG_LONG : Nat := 0x6C
def TAG_INT_ARRAY : Nat := 0x6E
def TAG_BOOLEAN : Nat := 0x6F
def TAG_STRING : Nat := 0x73
def TAG_BYTE_ARRAY : Nat := 0x78
def TAG_ARRAY : Nat := 0x79
def TAG_OBJECT_ARRAY : Nat := 0x7A

/-- Photon command kinds (`src/README.md` "Commands" and the literals `6`/`7`
in `PhotonParser.parseCommand`). -/
def CMD_VERIFY_CONNECT : Nat := 3
def CMD_DISCONNECT : Nat := 4
def CMD_PING : Nat := 5
def CMD_SEND_RELIABLE : Nat := 6
def CMD_SEND_UNRELIABLE : Nat := 7

/-- Packet signature, written literally in `PhotonSerializer.createPacket`
and checked in both `handleData` implementations. -/
def PHOTON_SIGNATURE : Nat := 0xFB17

/-- Operation codes (`src/README.md` "Supported Operations"). -/
def OP_AUTHENTICATE : Nat := 230
def OP_JOIN_ROOM : Nat := 226

/-- Modelled from the spec: `src/protocol/constants.js` is missing from the
source snapshot, so the numeric return-code values are taken from the
spec's return-code table (§4.4); the claims below only rely on the
constants being pairwise distinct and on `RET_OK = 0`. For RoomFull the
spec offers 32758 or 32765; 32765 is chosen so that the constants stay
distinct. -/
def RET_OK : Int := 0
def RET_OPERATION_INVALID : Int := -1
def RET_PLUGIN_REPORTED_ERROR : Int := -2
def RET_OPERATION_NOT_ALLOWED : Int := 32760
def RET_JOIN_FAILED_DENIED : Int := 32758
def RET_ROOM_CLOSED : Int := 32757
def RET_ROOM_FULL : Int := 32765
def RET_ROOM_NOT_FOUND : Int := 32764

/-- Modelled from the spec: `src/protocol/constants.js` is missing and the
spec (§9, open questions) notes the event numerics vary; only distinctness
of the four event codes is used by any claim. -/
def EV_JOIN : Nat := 255
def EV_LEAVE : Nat := 254
def EV_PROPERTIES_CHANGED : Nat := 253
def EV_MASTER_CLIENT_SWITCHED : Nat := 208

/-! ## Wire values accepted by the serializer

`PhotonSerializer.writePhotonType` dispatches on `typeof obj`; `JVal` covers
those input shapes.  IEEE-754 floats (the non-integer `number` branch and the
`W`/`V`/`Q` custom-data variants) are omitted from the input type — no claim
quantifies over float payloads — while the parser below still models the
corresponding byte formats.  A JS string is represented by its UTF-8 bytes,
exactly what `Buffer.from(str, 'utf8')` produces. -/

inductive JVal : Type where
  | jnull : JVal
  | jbool (b : Bool) : JVal
  /-- a JS `number` with `Number.isInteger` true -/
  | jint (n : Int) : JVal
  | jstr (utf8 : List Nat) : JVal
  /-- `Uint8Array` / `Buffer` contents -/
  | jbytes (bs : List Nat) : JVal
  /-- custom data `{variant: 'P', data: {player_id}}` -/
  | jplayer (pid : Int) : JVal
  | jarr (xs : List JVal) : JVal
  /-- a plain object, serialized as a hash table; `Object.keys` yields the
  string keys in insertion order -/
  | jobj (fields : List (List Nat × JVal)) : JVal
deriving Repr

/-- `typeof` of the embedded value. Note `typeof null` is `"object"` in JS. -/
def jsTypeof : JVal → String
  | .jnull => "object"
  | .jbool _ => "boolean"
  | .jint _ => "number"
  | .jstr _ => "string"
  | .jbytes _ => "object"
  | .jplayer _ => "object"
  | .jarr _ => "object"
  | .jobj _ => "object"

/-! Big-endian byte splitting used by the Node `Buffer.writeUInt*BE` calls.
The callers below validate the range first, as Node does (an out-of-range
value throws, which the `Option` models). -/

def u16be (n : Nat) : List Nat := [n / 2 ^ 8 % 256, n % 256]

def u32be (n : Nat) : List Nat :=
  [n / 2 ^ 24 % 256, n / 2 ^ 16 % 256, n / 2 ^ 8 % 256, n % 256]

def u64be (n : Nat) : List Nat :=
  [n / 2 ^ 56 % 256, n / 2 ^ 48 % 256, n / 2 ^ 40 % 256, n / 2 ^ 32 % 256,
   n / 2 ^ 24 % 256, n / 2 ^ 16 % 256, n / 2 ^ 8 % 256, n % 256]

/-- `Buffer.writeUInt8` with its range validation. -/
def writeU8 (v : Int) : Option (List Nat) :=
  if 0 ≤ v ∧ v ≤ 255 then some [v.toNat] else none

/-- `Buffer.writeUInt16BE` with its range validation. -/
def writeU16 (v : Int) : Option (List Nat) :=
  if 0 ≤ v ∧ v ≤ 65535 then some (u16be v.toNat) else none

/-- `Buffer.writeUInt32BE` with its range validation. -/
def writeU32 (v : Int) : Option (List Nat) :=
  if 0 ≤ v ∧ v ≤ 4294967295 then some (u32be v.toNat) else none

/-- `Buffer.writeBigUInt64BE (BigInt v)` with its range validation
(negative BigInts throw). -/
def writeU64 (v : Int) : Option (List Nat) :=
  if 0 ≤ v ∧ v < 2 ^ 64 then some (u64be v.toNat) else none

/-- `PhotonSerializer.writeString`: u16 byte length, then the UTF-8 bytes. -/
def writeString (s : List Nat) : Option (List Nat) :=
  (writeU16 s.length).map (· ++ s)

/-- `PhotonSerializer.writeByteArray`: u32 length, then the bytes. -/
def writeByteArray (bs : List Nat) : Option (List Nat) :=
  (writeU32 bs.length).map (· ++ bs)

/-- the string element of a uniformly-`string` array (total by construction:
`jsTypeof x = "string"` forces the `jstr` constructor). -/
def asStrBytes : JVal → List Nat
  | .jstr s => s
  | _ => []

/-- the numeric element of a uniformly-`number` array. -/
def asIntVal : JVal → Int
  | .jint n => n
  | _ => 0

/-- the string-array body: each element through `writeString`. -/
def writeStrList : List (List Nat) → Option (List Nat)
  | [] => some []
  | s :: ss => do
      let b ← writeString s
      let rest ← writeStrList ss
      pure (b ++ rest)

/-- the int-array body: each element through `writeUint32` (which throws on
negative or too-large values). -/
def writeU32List : List Int → Option (List Nat)
  | [] => some []
  | n :: ns => do
      let b ← writeU32 n
      let rest ← writeU32List ns
      pure (b ++ rest)


mutual

/-- `PhotonSerializer.writePhotonType` from `src/protocol/PhotonSerializer.js`
(lines 134–217 of `src/src/index.js`).  `none` models a thrown `RangeError`
from a Node buffer-write validation (negative int-array element, oversized
length, negative long, …). -/
def writePhotonType : JVal → Option (List Nat)
  | .jnull => some [TAG_NULL]
  | .jstr s => do
      let b ← writeString s
      pure (TAG_STRING :: b)
  | .jint n =>
      -- automatic width selection: byte → short → int → long, with the
      -- negative values folded into the unsigned range before writing
      if -128 ≤ n ∧ n ≤ 127 then
        (writeU8 (if n < 0 then n + 256 else n)).map (TAG_BYTE :: ·)
      else if -32768 ≤ n ∧ n ≤ 32767 then
        (writeU16 (if n < 0 then n + 65536 else n)).map (TAG_SHORT :: ·)
      else if -2147483648 ≤ n ∧ n ≤ 2147483647 then
        (writeU32 (if n < 0 then n + 4294967296 else n)).map (TAG_INTEGER :: ·)
      else
        (writeU64 n).map (TAG_LONG :: ·)
  | .jbool b => some [TAG_BOOLEAN, if b then 1 else 0]
  | .jbytes bs => (writeByteArray bs).map (TAG_BYTE_ARRAY :: ·)
  | .jplayer pid => do
      -- custom-data branch: `writeCustomData('P', {player_id})` writes the
      -- variant byte, the payload, and splices a u16 payload length in
      -- between (payload length 4 here)
      let payload ← writeU32 pid
      let lenBytes ← writeU16 payload.length
      pure (TAG_CUSTOM_DATA :: 80 :: (lenBytes ++ payload))
  | .jarr xs =>
      match xs with
      | [] => do
          let lenB ← writeU16 0
          pure (TAG_OBJECT_ARRAY :: lenB)
      | x :: _ =>
          if xs.all fun y => jsTypeof y = jsTypeof x then
            if jsTypeof x = "string" then do
              let lenB ← writeU16 xs.length
              let body ← writeStrList (xs.map asStrBytes)
              pure (TAG_STRING_ARRAY :: (lenB ++ body))
            else if jsTypeof x = "number" then do
              -- int array: each element written with `writeUint32(num)`
              let lenB ← writeU32 xs.length
              let body ← writeU32List (xs.map asIntVal)
              pure (TAG_INT_ARRAY :: (lenB ++ body))
            else do
              let lenB ← writeU16 xs.length
              let body ← writeValList xs
              pure (TAG_OBJECT_ARRAY :: (lenB ++ body))
          else do
            let lenB ← writeU16 xs.length
            let body ← writeValList xs
            pure (TAG_OBJECT_ARRAY :: (lenB ++ body))
  | .jobj fields => do
      -- hash table: u16 key count, then writePhotonType(key); writePhotonType(value)
      let lenB ← writeU16 fields.length
      let body ← writeFieldList fields
      pure (TAG_HASH_TABLE :: (lenB ++ body))

def writeValList : List JVal → Option (List Nat)
  | [] => some []
  | v :: vs => do
      let b ← writePhotonType v
      let rest ← writeValList vs
      pure (b ++ rest)

def writeFieldList : List (List Nat × JVal) → Option (List Nat)
  | [] => some []
  | (k, v) :: fs => do
      -- the source calls `writePhotonType(key)` on the string key; for a
      -- string that call is exactly the `TAG_STRING`/`writeString` case,
      -- inlined here so the recursion stays structural
      -- (`writePhotonType_jstr` below proves the two agree)
      let kb ← (writeString k).map (TAG_STRING :: ·)
      let vb ← writePhotonType v
      let rest ← writeFieldList fs
      pure (kb ++ vb ++ rest)

end

/-! ## The parser (`PhotonParser`)

The parser keeps a byte buffer and an offset.  Reads go through `DataView`
accessors (which throw — `none` — when the read would cross the end of the
buffer) and then move the offset through `increment`, which clamps it at
`byteLength - 1`; that clamp is in the source and is observable (it corrupts
`readFixedBytes` slices near the end of the buffer). -/

structure PState where
  buf : List Nat
  off : Nat
deriving Repr, DecidableEq

/-- `PhotonParser.increment`: `Math.min(offset + inc, byteLength - 1)`.
For the empty buffer JS produces `-1` where `Nat` subtraction gives `0`; the
difference is unobservable because on an empty buffer every read throws
before the offset is used. -/
def PState.increment (s : PState) (inc : Nat) : PState :=
  { buf := s.buf, off := Nat.min (s.off + inc) (s.buf.length - 1) }

/-- big-endian value of a byte list. -/
def beVal (l : List Nat) : Nat := l.foldl (fun a b => 256 * a + b) 0

/-- a `k`-byte big-endian `DataView` read at the current offset (with the
`DataView` bounds check) followed by `increment k`; `readUint8`, `readUint16`,
`readUint32`, `readUint64` and the float-bit reads below are its instances. -/
def readBE (k : Nat) (s : PState) : Option (Nat × PState) :=
  if s.off + k ≤ s.buf.length then
    some (beVal ((s.buf.drop s.off).take k), s.increment k)
  else none

def readUint8 (s : PState) : Option (Nat × PState) := readBE 1 s

def readUint16 (s : PState) : Option (Nat × PState) := readBE 2 s

def readUint32 (s : PState) : Option (Nat × PState) := readBE 4 s

def readUint64 (s : PState) : Option (Nat × PState) := readBE 8 s

/-- `readFloat`, kept as the raw 32-bit IEEE-754 pattern. -/
def readFloatBits (s : PState) : Option (Nat × PState) := readBE 4 s

/-- `readDouble`, kept as the raw 64-bit IEEE-754 pattern. -/
def readDoubleBits (s : PState) : Option (Nat × PState) := readBE 8 s

/-- `ArrayBuffer.slice(b, e)` semantics: a negative index counts from the
end; both indices are then clamped to `[0, n]`. -/
def jsSlice (l : List Nat) (b e : Int) : List Nat :=
  let n : Int := l.length
  let b2 : Nat := (if b < 0 then max (n + b) 0 else min b n).toNat
  let e2 : Nat := (if e < 0 then max (n + e) 0 else min e n).toNat
  (l.drop b2).take (e2 - b2)

/-- `PhotonParser.readFixedBytes(len)`: for `len = 0` an empty array;
otherwise `increment(len)` first and then `buffer.slice(offset - len, offset)`
— with the clamped offset, which is where end-of-buffer reads go wrong. -/
def readFixedBytes (len : Nat) (s : PState) : List Nat × PState :=
  if len = 0 then ([], s)
  else
    let s2 := s.increment len
    (jsSlice s2.buf ((s2.off : Int) - (len : Int)) (s2.off : Int), s2)

/-- the `data` part of a parsed value (`parsePhotonType` returns
`{type, data}`; a parsed value is modelled as `Nat × PData`).  `pnull` is JS
`null`, which is both the `NULL` tag's data and the data left behind by an
unknown type tag. -/
inductive PData : Type where
  | pnull : PData
  /-- byte / short / int, all read unsigned -/
  | pnum (n : Nat) : PData
  /-- long, read as an unsigned BigInt -/
  | pbig (n : Nat) : PData
  | pbool (b : Bool) : PData
  /-- string: the bytes handed to `TextDecoder` -/
  | pstr (bytes : List Nat) : PData
  | pbytes (bs : List Nat) : PData
  | pints (ns : List Nat) : PData
  | pstrs (ss : List (List Nat)) : PData
  | pfloat (bits : Nat) : PData
  | pdouble (bits : Nat) : PData
  | pvec2 (x y : Nat) : PData
  | pvec3 (x y z : Nat) : PData
  | pquat (w x y z : Nat) : PData
  | pplayer (pid : Nat) : PData
  /-- unknown custom-data variant: opaque bytes -/
  | praw (variant : Nat) (bs : List Nat) : PData
  | parr (t : Nat) (xs : List (Nat × PData)) : PData
  | pobjarr (xs : List (Nat × PData)) : PData
  | phash (entries : List ((Nat × PData) × (Nat × PData))) : PData
  | pdict (kt vt : Nat) (entries : List ((Nat × PData) × (Nat × PData))) : PData
deriving Repr

/-- a parsed `{type, data}` pair. -/
abbrev PVal := Nat × PData

/-- `parseString`: u16 length, then `TextDecoder().decode(readFixedBytes len)`
(the decoded string is kept as its byte list). -/
def parseString (s : PState) : Option (List Nat × PState) := do
  let (len, s1) ← readUint16 s
  pure (readFixedBytes len s1)

/-- the loop of `parseStringArray`. -/
def parseStrLoop : Nat → PState → Option (List (List Nat) × PState)
  | 0, s => some ([], s)
  | count + 1, s => do
      let (x, s1) ← parseString s
      let (rest, s2) ← parseStrLoop count s1
      pure (x :: rest, s2)

/-- the loop of `parseIntArray` (`readUint32` per element). -/
def parseIntLoop : Nat → PState → Option (List Nat × PState)
  | 0, s => some ([], s)
  | count + 1, s => do
      let (x, s1) ← readUint32 s
      let (rest, s2) ← parseIntLoop count s1
      pure (x :: rest, s2)

/-- `parseCustomData`: variant char, u16 declared length, then a
variant-specific payload.  For the known variants the declared length is
read but ignored; unknown variants read exactly `len` bytes. -/
def parseCustomData (s : PState) : Option (PData × PState) := do
  let (variant, s1) ← readUint8 s
  let (len, s2) ← readUint16 s1
  if variant = 87 then do       -- 'W' Vec2
    let (x, s3) ← readFloatBits s2
    let (y, s4) ← readFloatBits s3
    pure (.pvec2 x y, s4)
  else if variant = 86 then do  -- 'V' Vec3
    let (x, s3) ← readFloatBits s2
    let (y, s4) ← readFloatBits s3
    let (z, s5) ← readFloatBits s4
    pure (.pvec3 x y z, s5)
  else if variant = 81 then do  -- 'Q' Quaternion
    let (w, s3) ← readFloatBits s2
    let (x, s4) ← readFloatBits s3
    let (y, s5) ← readFloatBits s4
    let (z, s6) ← readFloatBits s5
    pure (.pquat w x y z, s6)
  else if variant = 80 then do  -- 'P' PhotonPlayer
    let (pid, s3) ← readUint32 s2
    pure (.pplayer pid, s3)
  else
    let (bs, s3) := readFixedBytes len s2
    pure (.praw variant bs, s3)

/-- a generic element loop for `parseArray`/`parseObjectArray`, over a given
element parser. -/
def parseElemLoop (p : PState → Option (PVal × PState)) :
    Nat → PState → Option (List PVal × PState)
  | 0, s => some ([], s)
  | count + 1, s => do
      let (x, s1) ← p s
      let (rest, s2) ← parseElemLoop p count s1
      pure (x :: rest, s2)

/-- the key/value loop shared by `parseHashTable` and `parseDictionary`:
entries whose key `data` is `null` are skipped (`if (key.data != null)`). -/
def parseKVLoop (kp vp : PState → Option (PVal × PState)) :
    Nat → PState → Option (List (PVal × PVal) × PState)
  | 0, s => some ([], s)
  | count + 1, s => do
      let (k, s1) ← kp s
      let (v, s2) ← vp s1
      let (rest, s3) ← parseKVLoop kp vp count s2
      match k.2 with
      | .pnull => pure (rest, s3)
      | _ => pure ((k, v) :: rest, s3)

/-- `PhotonParser.parsePhotonType` (lines 558–602 of `src/src/index.js`),
together with the per-tag parse functions it dispatches to.  `fixedType`
models the `fixedType ?? this.readUint8()` argument.  The `fuel` argument
bounds the nesting depth (the JS call stack); every theorem below either
quantifies over the fuel or supplies one that is provably sufficient. -/
def parsePhotonType : Nat → Option Nat → PState → Option (PVal × PState)
  | 0, _, _ => none
  | fuel + 1, fixedType, s => do
      let (ty, s0) ← match fixedType with
        | some t => some (t, s)
        | none => readUint8 s
      if ty = TAG_NULL then
        pure ((ty, .pnull), s0)
      else if ty = TAG_DICTIONARY then do
        let (keyType, s1) ← readUint8 s0
        let (valType, s2) ← readUint8 s1
        let (len, s3) ← readUint16 s2
        let readKey := keyType = 0 ∨ keyType = TAG_NULL
        let readVal := valType = 0 ∨ valType = TAG_NULL
        let (entries, s4) ← parseKVLoop
          (parsePhotonType fuel (if readKey then none else some keyType))
          (parsePhotonType fuel (if readVal then none else some valType)) len s3
        pure ((ty, .pdict keyType valType entries), s4)
      else if ty = TAG_STRING_ARRAY then do
        let (len, s1) ← readUint16 s0
        let (ss, s2) ← parseStrLoop len s1
        pure ((ty, .pstrs ss), s2)
      else if ty = TAG_BYTE then do
        let (b, s1) ← readUint8 s0
        pure ((ty, .pnum b), s1)
      else if ty = TAG_CUSTOM_DATA then do
        let (d, s1) ← parseCustomData s0
        pure ((ty, d), s1)
      else if ty = TAG_DOUBLE then do
        let (bits, s1) ← readDoubleBits s0
        pure ((ty, .pdouble bits), s1)
      else if ty = TAG_FLOAT then do
        let (bits, s1) ← readFloatBits s0
        pure ((ty, .pfloat bits), s1)
      else if ty = TAG_HASH_TABLE then do
        let (len, s1) ← readUint16 s0
        let (entries, s2) ← parseKVLoop
          (parsePhotonType fuel none) (parsePhotonType fuel none) len s1
        pure ((ty, .phash entries), s2)
      else if ty = TAG_INTEGER then do
        let (n, s1) ← readUint32 s0
        pure ((ty, .pnum n), s1)
      else if ty = TAG_SHORT then do
        let (n, s1) ← readUint16 s0
        pure ((ty, .pnum n), s1)
      else if ty = TAG_LONG then do
        let (n, s1) ← readUint64 s0
        pure ((ty, .pbig n), s1)
      else if ty = TAG_INT_ARRAY then do
        let (len, s1) ← readUint32 s0
        let (ns, s2) ← parseIntLoop len s1
        pure ((ty, .pints ns), s2)
      else if ty = TAG_BOOLEAN then do
        let (b, s1) ← readUint8 s0
        pure ((ty, .pbool (b ≠ 0)), s1)
      else if ty = TAG_STRING then do
        let (bytes, s1) ← parseString s0
        pure ((ty, .pstr bytes), s1)
      else if ty = TAG_BYTE_ARRAY then do
        let (len, s1) ← readUint32 s0
        let (bs, s2) := readFixedBytes len s1
        pure ((ty, .pbytes bs), s2)
      else if ty = TAG_ARRAY then do
        -- parseArray: u16 length FIRST, then the inner type tag
        let (len, s1) ← readUint16 s0
        let (t, s2) ← readUint8 s1
        let (xs, s3) ← parseElemLoop (parsePhotonType fuel (some t)) len s2
        pure ((ty, .parr t xs), s3)
      else if ty = TAG_OBJECT_ARRAY then do
        let (len, s1) ← readUint16 s0
        let (xs, s2) ← parseElemLoop (parsePhotonType fuel none) len s1
        pure ((ty, .pobjarr xs), s2)
      else
        -- unknown tag: console.warn only, data stays null
        pure ((ty, .pnull), s0)

/-- a parsed command record (`parseCommand`). -/
structure Cmd : Type where
  command : Nat
  channelId : Nat
  flags : Nat
  reserved : Nat
  timestamp : Nat
  sequenceNumber : Option Nat
  data : Option PVal
deriving Repr

/-- `PhotonParser.parseCommand`: returns `some (none, _)` for the source's
`return null` (offset already at the end) and `none` for a thrown decode
error. -/
def parseCommand (fuel : Nat) (s : PState) : Option (Option Cmd × PState) :=
  if s.buf.length - 1 ≤ s.off then some (none, s)
  else do
    let (command, s1) ← readUint8 s
    let (channelId, s2) ← readUint8 s1
    let (flags, s3) ← readUint8 s2
    let (reserved, s4) ← readUint8 s3
    let (timestamp, s5) ← readUint32 s4
    let (seq, s6) ← if command = CMD_SEND_RELIABLE ∨ command = CMD_SEND_UNRELIABLE then
        (readUint32 s5).map fun p => (some p.1, p.2)
      else some (none, s5)
    let (data, s7) ← if s6.off < s6.buf.length - 1 then
        (parsePhotonType fuel none s6).map fun p => (some p.1, p.2)
      else some (none, s6)
    pure (some ⟨command, channelId, flags, reserved, timestamp, seq, data⟩, s7)

/-- the `while (parser.offset < byteLength - 1)` command loop shared by both
`handleData` implementations.  The fuel decreases once per command; a fuel of
`buf.length + 1` is always sufficient because each loop iteration strictly
increases the offset (its guard also bounds it). -/
def parseCommandsLoop : Nat → PState → Option (List Cmd × PState)
  | 0, _ => none
  | fuel + 1, s =>
      if s.off < s.buf.length - 1 then do
        let (c?, s1) ← parseCommand (s.buf.length + 1) s
        match c? with
        | none => pure ([], s1)
        | some c => do
            let (rest, s2) ← parseCommandsLoop fuel s1
            pure (c :: rest, s2)
      else some ([], s)

/-- the full command parse of a data buffer: `some cmds` when the loop runs
to completion, `none` when a decode error is thrown somewhere inside it. -/
def parseAllCommands (raw : List Nat) : Option (List Cmd) :=
  (parseCommandsLoop (raw.length + 1) ⟨raw, 0⟩).map (·.1)

/-- encode with `writePhotonType`, then decode the resulting bytes with
`parsePhotonType` (at the given nesting-depth fuel). -/
def roundTrip (fuel : Nat) (v : JVal) : Option PVal :=
  (writePhotonType v).bind fun bs => (parsePhotonType fuel none ⟨bs, 0⟩).map (·.1)

/-! ## JS `Map` operations

`PhotonRoom._peers` and the registry maps are JS `Map`s: insertion-ordered,
`set` replaces in place, `delete` removes.  They are embedded as association
lists with unique keys. -/

def mapHas {κ α : Type} [DecidableEq κ] (m : List (κ × α)) (k : κ) : Bool :=
  m.any fun e => e.1 = k

def mapGet {κ α : Type} [DecidableEq κ] (m : List (κ × α)) (k : κ) : Option α :=
  (m.find? fun e => e.1 = k).map (·.2)

def mapSet {κ α : Type} [DecidableEq κ] (m : List (κ × α)) (k : κ) (v : α) :
    List (κ × α) :=
  match m with
  | [] => [(k, v)]
  | e :: rest => if e.1 = k then (k, v) :: rest else e :: mapSet rest k v

def mapDelete {κ α : Type} [DecidableEq κ] (m : List (κ × α)) (k : κ) :
    List (κ × α) :=
  m.filter fun e => e.1 ≠ k

def mapUpdate {κ α : Type} [DecidableEq κ] (m : List (κ × α)) (k : κ) (f : α → α) :
    List (κ × α) :=
  m.map fun e => if e.1 = k then (e.1, f e.2) else e

/-! ## Peers (`PhotonPeer`, the enterprise class in `src/src/core/PhotonRoom.js`
lines 1542–3011)

The embedding keeps the fields the room engine and the operation handlers
read or write.  Outbound sends are modelled as emitted messages: the
sequence counters and per-peer traffic statistics that `sendCommand` bumps
on each send are not tracked (no claim below mentions them), but whether a
send happens at all follows `_canSendCommand` exactly. -/

inductive PeerState : Type where
  | connecting | connected | disconnecting | disconnected
deriving Repr, DecidableEq

structure PeerSt : Type where
  peerId : Nat
  status : PeerState
  isActive : Bool
  socketDestroyed : Bool
  isMasterClient : Bool
  isAuthenticated : Bool
  /-- `_auth.hasValidPassword`, initialized `false` and only ever written by
  `PhotonPeer.validatePassword` -/
  hasValidPassword : Bool
  playerName : String
  userId : String
  /-- `_room`, as the room's name (non-owning reference) -/
  room : Option String
  joinTime : Option Nat
  lastActivity : Nat
  messagesReceived : Nat
  bytesReceived : Nat
deriving Repr, DecidableEq

/-- `PhotonPeer.isConnected()`. -/
def PeerSt.isConnected (p : PeerSt) : Bool :=
  p.status = .connected && p.isActive && !p.socketDestroyed

/-- `PhotonPeer._canSendCommand()`. -/
def PeerSt.canSendCommand (p : PeerSt) : Bool :=
  !p.socketDestroyed && p.isActive && p.status ≠ .disconnected

/-- `PhotonPeer.validatePassword`: sets `hasValidPassword = true` and returns
it, performing no actual comparison (the source's comment says "Implement
actual validation"). -/
def PeerSt.validatePassword (p : PeerSt) : PeerSt × Bool :=
  ({ p with hasValidPassword := true }, true)

/-- `PhotonPeer.setRoom`: entering a room records the join time; leaving
(`setRoom(null)`) clears the join time and the master flag. -/
def PeerSt.setRoom (p : PeerSt) (room : Option String) (now : Nat) : PeerSt :=
  match room with
  | some name => { p with room := some name, joinTime := some now }
  | none => { p with room := none, joinTime := none, isMasterClient := false }

/-! ## Messages

Everything a room operation or a handler sends to a peer, with just enough
payload for the claims: operation responses carry the op-code and return
code, events carry the event code and — for the membership events — the
actor and master-client ids. -/

inductive Params : Type where
  /-- the join-response / JOIN-event / LEAVE-event payload fields the claims
  look at -/
  | member (actorNr : Nat) (masterClientId : Option Nat) : Params
  | masterSwitched (newMasterClientId : Nat) : Params
  /-- replayed cached-event parameters (opaque) -/
  | cached (raw : Nat) : Params
  | auth (nickname userId : String) : Params
  | misc : Params
deriving Repr, DecidableEq

inductive Msg : Type where
  | opResp (target : Nat) (op : Nat) (ret : Int) (params : Params) : Msg
  | evt (target : Nat) (code : Nat) (params : Params) : Msg
deriving Repr, DecidableEq

/-- `PhotonPeer.sendOperationResponse` (via `sendCommand`): emits iff
`_canSendCommand`. -/
def PeerSt.sendOperationResponse (p : PeerSt) (op : Nat) (ret : Int)
    (params : Params) : List Msg × Bool :=
  if p.canSendCommand then ([.opResp p.peerId op ret params], true) else ([], false)

/-- `PhotonPeer.sendEvent` (via `sendCommand`): emits iff `_canSendCommand`. -/
def PeerSt.sendEvent (p : PeerSt) (code : Nat) (params : Params) :
    List Msg × Bool :=
  if p.canSendCommand then ([.evt p.peerId code params], true) else ([], false)

/-! ## Rooms (`PhotonRoom`, `src/src/core/PhotonRoom.js` lines 10–1523) -/

inductive RoomStatus : Type where
  | active | closed | destroyed
deriving Repr, DecidableEq

/-- `_state.stats` of a room.  `averageSessionDuration` is float arithmetic
in the source; it is embedded as an exact rational, which no claim below
inspects beyond "unchanged". -/
structure RoomStats : Type where
  totalJoins : Nat
  totalLeaves : Nat
  eventsRaised : Nat
  maxPlayersReached : Nat
  totalDataTransferred : Nat
  averageSessionDuration : ℚ
  masterClientChanges : Nat
deriving Repr, DecidableEq

/-- one `_cachedEvents` entry; the replay parameters are opaque to every
claim. -/
structure CachedEvent : Type where
  eventCode : Nat
  parameters : Nat
  senderId : Nat
  timestamp : Nat
deriving Repr, DecidableEq

structure RoomSt : Type where
  name : String
  maxPlayers : Nat
  isOpen : Bool
  isVisible : Bool
  password : Option String
  playerTtl : Nat
  emptyRoomTtl : Nat
  autoCleanup : Bool
  maxCachedEvents : Nat
  status : RoomStatus
  masterClientId : Option Nat
  lastActivity : Nat
  stats : RoomStats
  peers : List (Nat × PeerSt)
  cachedEvents : List CachedEvent
deriving Repr, DecidableEq

def RoomSt.isEmpty (r : RoomSt) : Bool := r.peers.length = 0

def RoomSt.isFull (r : RoomSt) : Bool := r.peers.length ≥ r.maxPlayers

/-- `PhotonRoom.validatePassword` (room-level, used by the handlers):
`!password || password === provided`.  The provided password may be absent
(`undefined`), which never equals a set password. -/
def RoomSt.validatePassword (r : RoomSt) (provided : Option String) : Bool :=
  match r.password with
  | none => true
  | some pw => provided = some pw

/-- `PhotonRoom._validatePeerPassword`: with a password set, the peer's
`hasValidPassword` flag short-circuits the call to
`peer.validatePassword` — the stored password is never compared against
anything the joining peer supplied. -/
def validatePeerPassword (r : RoomSt) (p : PeerSt) : PeerSt × Bool :=
  match r.password with
  | none => (p, true)
  | some _ =>
      if p.hasValidPassword then p.validatePassword else (p, false)

/-- `PhotonRoom._validatePeerForJoin`, as the sequence of checks in source
order; `some msg` is the thrown error.  The leading `!peer` instance check
cannot fire in the embedding (every `PeerSt` has a peer id). -/
def validatePeerForJoin (r : RoomSt) (p : PeerSt) : PeerSt × Option String :=
  if r.status ≠ .active then (p, some "Room is not active")
  else if !r.isOpen then (p, some "Room is closed to new players")
  else if mapHas r.peers p.peerId then (p, some "Peer is already in the room")
  else if r.isFull then (p, some "Room is at maximum capacity")
  else
    let (p1, ok) := validatePeerPassword r p
    if ok then (p1, none) else (p1, some "Invalid room password")

/-- the `excludePeerId && peerId === excludePeerId` skip test of
`PhotonRoom._broadcastEvent` (truthiness: a `0`/`null` exclusion skips
nobody, as in JS). -/
def excludes (excludePeerId : Option Nat) (pid : Nat) : Bool :=
  match excludePeerId with
  | some ex => ex ≠ 0 && pid = ex
  | none => false

/-- the member loop of `_broadcastEvent`: skip the excluded id, skip
non-connected members, `sendEvent` to the rest in member order. -/
def broadcastSends (peers : List (Nat × PeerSt)) (code : Nat) (params : Params)
    (excludePeerId : Option Nat) : List Msg :=
  peers.foldr
    (fun e acc =>
      if excludes excludePeerId e.1 then acc
      else if e.2.isConnected then (PeerSt.sendEvent e.2 code params).1 ++ acc
      else acc) []

/-- `PhotonRoom._broadcastEvent` (lines 640–668): bumps
`stats.eventsRaised`, then runs the member send loop. -/
def broadcastEvent (r : RoomSt) (code : Nat) (params : Params)
    (excludePeerId : Option Nat) : RoomSt × List Msg :=
  let r1 := { r with stats := { r.stats with eventsRaised := r.stats.eventsRaised + 1 } }
  (r1, broadcastSends r1.peers code params excludePeerId)

/-- `PhotonRoom._setMasterClient` (lines 557–598): clear the previous
master's flag when the previous id is truthy and still a member, install
the new id, flag the new master if present, bump the change counter, and
broadcast `MasterClientSwitched` to the whole room.  Nothing in the
embedded body can throw, so the source's `return true` path is the only
one. -/
def setMasterClientInternal (r : RoomSt) (peerId : Nat) : RoomSt × List Msg :=
  let r1 := match r.masterClientId with
    | some prev =>
        if prev ≠ 0 ∧ mapHas r.peers prev then
          { r with peers := mapUpdate r.peers prev fun q => { q with isMasterClient := false } }
        else r
    | none => r
  let r2 := { r1 with masterClientId := some peerId }
  let r3 :=
    if mapHas r2.peers peerId then
      { r2 with peers := mapUpdate r2.peers peerId fun q => { q with isMasterClient := true } }
    else r2
  let r4 := { r3 with stats := { r3.stats with masterClientChanges := r3.stats.masterClientChanges + 1 } }
  broadcastEvent r4 EV_MASTER_CLIENT_SWITCHED (.masterSwitched peerId) none

/-- `PhotonRoom._selectNewMasterClient` (lines 605–617): with no members
left the master id becomes `null`; otherwise the member ids are sorted
ascending and the first — the smallest — becomes master. -/
def selectNewMasterClient (r : RoomSt) : RoomSt × List Msg :=
  if r.peers.length = 0 then
    ({ r with masterClientId := none }, [])
  else
    match (r.peers.map Prod.fst).mergeSort (· ≤ ·) with
    | [] => (r, [])   -- unreachable: the sorted list of a nonempty list is nonempty
    | m :: _ => setMasterClientInternal r m

/-- `PhotonRoom._addPeerToRoom` + `_handlePeerJoinEvents`, the success path
of `addPeer`: store the peer (with its room reference set, aliasing the
stored object), make it master if it is the first member, update activity
and join statistics, then send the join response, replay the cached events
to the new member, and broadcast the JOIN event to everyone else. -/
def addPeerSuccess (r : RoomSt) (p : PeerSt) (now : Nat) : RoomSt × PeerSt × List Msg :=
  let p1 := p.setRoom (some r.name) now
  let r1 := { r with peers := mapSet r.peers p1.peerId p1 }
  let (r2, switchMsgs) :=
    if r1.peers.length = 1 then setMasterClientInternal r1 p1.peerId else (r1, [])
  -- the stored peer may just have been flagged master; keep the alias exact
  let p2 := (mapGet r2.peers p1.peerId).getD p1
  let r3 := { r2 with
    lastActivity := now,
    stats := { r2.stats with
      totalJoins := r2.stats.totalJoins + 1,
      maxPlayersReached := max r2.stats.maxPlayersReached r2.peers.length } }
  let joinResp := (p2.sendOperationResponse OP_JOIN_ROOM RET_OK
    (.member p2.peerId r3.masterClientId)).1
  let cachedMsgs := r3.cachedEvents.foldr
    (fun ce acc => (p2.sendEvent ce.eventCode (.cached ce.parameters)).1 ++ acc) []
  let (r4, joinBroadcast) :=
    broadcastEvent r3 EV_JOIN (.member p2.peerId r3.masterClientId) (some p2.peerId)
  (r4, p2, switchMsgs ++ joinResp ++ cachedMsgs ++ joinBroadcast)

/-- `PhotonRoom.addPeer` (lines 255–279): validation failures are caught and
produce `false` with nothing mutated; otherwise the success path runs.
Returns the room, the (aliased) peer, the messages sent, and the boolean
result. -/
def addPeer (r : RoomSt) (p : PeerSt) (now : Nat) : RoomSt × PeerSt × List Msg × Bool :=
  let (p1, err) := validatePeerForJoin r p
  match err with
  | some _ => (r, p1, [], false)
  | none =>
      let (r1, p2, msgs) := addPeerSuccess r p1 now
      (r1, p2, msgs, true)

/-- `PhotonRoom.removePeer` (lines 424–454) for the member with id `pid`
(the source receives the aliased member object itself): delete it from the
member map, clear its room reference and master flag, update activity,
re-elect a master if the removed peer was the master, broadcast the LEAVE
event to the remaining members, and update the leave statistics.  Returns
the room, the removed peer, the messages, and the boolean result. -/
def removePeer (r : RoomSt) (pid : Nat) (now : Nat) : RoomSt × Option PeerSt × List Msg × Bool :=
  match mapGet r.peers pid with
  | none => (r, none, [], false)
  | some p =>
      let sessionDuration : ℚ := match p.joinTime with
        | some jt => ((now : ℚ) - (jt : ℚ))
        | none => 0
      let p1 := (p.setRoom none now)
      let r1 := { r with peers := mapDelete r.peers pid, lastActivity := now }
      let (r2, switchMsgs) :=
        if r1.masterClientId = some pid then selectNewMasterClient r1 else (r1, [])
      let (r3, leaveMsgs) :=
        broadcastEvent r2 EV_LEAVE (.member pid r2.masterClientId) none
      let totalSessions := r3.stats.totalLeaves + 1
      let newAvg : ℚ :=
        (r3.stats.averageSessionDuration * ((totalSessions : ℚ) - 1) + sessionDuration)
          / (totalSessions : ℚ)
      let r4 := { r3 with stats := { r3.stats with
        totalLeaves := totalSessions, averageSessionDuration := newAvg } }
      (r4, some p1, switchMsgs ++ leaveMsgs, true)

/-- `PhotonRoom.setMasterClient` (public, lines 538–549): refuses an id that
is not a member. -/
def setMasterClient (r : RoomSt) (peerId : Nat) : RoomSt × List Msg × Bool :=
  if mapHas r.peers peerId then
    let (r1, msgs) := setMasterClientInternal r peerId
    (r1, msgs, true)
  else (r, [], false)

/-- `PhotonRoom.shouldCleanup` (lines 1016–1026).  A JS
`currentTime - lastActivity` can be negative, in which case the `>` is
false; `Nat` subtraction truncates to `0` with the same outcome. -/
def RoomSt.shouldCleanup (r : RoomSt) (currentTime : Nat) : Bool :=
  if !r.autoCleanup || !r.isEmpty then false
  else if r.emptyRoomTtl = 0 then false
  else currentTime - r.lastActivity > r.emptyRoomTtl

/-! ## Room construction (`PhotonRoom`'s constructor) -/

/-- the options object handed to `new PhotonRoom(name, options)`; absent
fields are JS `undefined`. -/
structure RoomOptions : Type where
  maxPlayers : Option Int := none
  isOpen : Option Bool := none
  isVisible : Option Bool := none
  password : Option String := none
  playerTtl : Option Int := none
  emptyRoomTtl : Option Int := none
  autoCleanup : Option Bool := none
  maxCachedEvents : Option Int := none
deriving Repr

/-- `_validateTtl`: absent → default, negative → throw. -/
def validateTtl (ttl : Option Int) (dflt : Nat) : Except String Nat :=
  match ttl with
  | none => .ok dflt
  | some v => if v < 0 then .error "TTL must be a non-negative number" else .ok v.toNat

/-- `PhotonRoom`'s constructor: `_validateAndMergeConfig` +
`_initializeRoomState`.  `parseInt(x) || dflt` makes both an absent and a
zero value fall back to the default.  The room's `customProperties` are not
tracked (no claim reads them).  Room names are modelled as already trimmed. -/
def mkPhotonRoom (name : String) (options : RoomOptions) (now : Nat) :
    Except String RoomSt := do
  if name = "" then throw "Room name must be a non-empty string"
  let mpRaw : Int := match options.maxPlayers with
    | none => 4
    | some v => if v = 0 then 4 else v
  if mpRaw < 1 ∨ 500 < mpRaw then throw "maxPlayers must be between 1 and 500"
  let password : Option String ← match options.password with
    | none => pure none
    | some pw =>
        if pw = "" then pure none
        else if pw.length > 50 then throw "Password cannot exceed 50 characters"
        else pure (some pw)
  let playerTtl ← validateTtl options.playerTtl 0
  let emptyRoomTtl ← validateTtl options.emptyRoomTtl 300000
  let mceRaw : Int := match options.maxCachedEvents with
    | none => 100
    | some v => if v = 0 then 100 else v
  if mceRaw < 0 ∨ 1000 < mceRaw then throw "maxCachedEvents must be between 0 and 1000"
  pure {
    name := name
    maxPlayers := mpRaw.toNat
    isOpen := options.isOpen ≠ some false
    isVisible := options.isVisible ≠ some false
    password := password
    playerTtl := playerTtl
    emptyRoomTtl := emptyRoomTtl
    autoCleanup := options.autoCleanup ≠ some false
    maxCachedEvents := mceRaw.toNat
    status := .active
    masterClientId := none
    lastActivity := now
    stats := ⟨0, 0, 0, 0, 0, 0, 0⟩
    peers := []
    cachedEvents := [] }

/-! ## Registry (`PhotonServer`)

Two `PhotonServer` classes exist in the sources: the plain one in
`src/src/core/PhotonServer.js` and the enterprise one concatenated into
`src/src/handlers/OperationHandler.js` (lines 328–1636).  Their `createRoom`
and cleanup-tick behaviours differ, so both are embedded. -/

abbrev Rooms := List (String × RoomSt)

/-- the plain `PhotonServer.createRoom` (lines 243–256): an existing name
returns the existing room unchanged — no error —, otherwise the new room is
constructed (whose validation may throw, uncaught here) and inserted. -/
def createRoomSimple (rooms : Rooms) (totalRoomsCreated : Nat) (name : String)
    (options : RoomOptions) (now : Nat) :
    Except String (Rooms × Nat × RoomSt) :=
  match mapGet rooms name with
  | some existing => .ok (rooms, totalRoomsCreated, existing)
  | none => do
      let room ← mkPhotonRoom name options now
      .ok (mapSet rooms name room, totalRoomsCreated + 1, room)

/-- the enterprise `PhotonServer.createRoom` (`OperationHandler.js`
lines 1154–1188): an existing name throws.  The enterprise server also
substitutes its configured `emptyRoomTtl` when the option is falsy. -/
def createRoomPro (rooms : Rooms) (totalRoomsCreated : Nat) (name : String)
    (options : RoomOptions) (configEmptyRoomTtl : Int) (now : Nat) :
    Except String (Rooms × Nat × RoomSt) := do
  if name = "" then throw "Room name must be a non-empty string"
  if mapHas rooms name then throw "Room already exists"
  let effective := { options with emptyRoomTtl := some (match options.emptyRoomTtl with
    | none => configEmptyRoomTtl
    | some v => if v = 0 then configEmptyRoomTtl else v) }
  let room ← mkPhotonRoom name effective now
  .ok (mapSet rooms name room, totalRoomsCreated + 1, room)

/-- `PhotonServer.removeRoom`, identical decision structure in both servers
(plain lines 258–274, enterprise lines 1195–1225): missing name → `false`;
non-empty room → warn and `false` with nothing changed; otherwise destroy
and delete. -/
def removeRoom (rooms : Rooms) (name : String) : Rooms × Bool :=
  match mapGet rooms name with
  | none => (rooms, false)
  | some room =>
      if !room.isEmpty then (rooms, false)
      else (mapDelete rooms name, true)

/-! ## Cleanup ticks -/

/-- the `room.emptyRoomTtl` property access in the plain server's
`startCleanupInterval`: `PhotonRoom` defines no `emptyRoomTtl` getter or
field — the value lives in the private `_config` — so the access yields
`undefined`. -/
def roomEmptyRoomTtlProp (_r : RoomSt) : Option Nat := none

/-- the `room.lastActivity` property access in the same loop: also absent
from `PhotonRoom` (the timestamp lives in `_state`), hence `undefined`. -/
def roomLastActivityProp (_r : RoomSt) : Option Nat := none

/-- the per-room eligibility test of the plain server's cleanup tick
(`PhotonServer.startCleanupInterval`, lines 330–349):
`room.isEmpty() && room.emptyRoomTtl > 0 && now - room.lastActivity > room.emptyRoomTtl`.
With both property reads `undefined`, `undefined > 0` is `false` and
`NaN > undefined` is `false`, so no room ever qualifies. -/
def simpleCleanupEligible (r : RoomSt) (now : Nat) : Bool :=
  r.isEmpty && (match roomEmptyRoomTtlProp r with
    | some ttl =>
        0 < ttl && (match roomLastActivityProp r with
          | some la => ttl < now - la
          | none => false)
    | none => false)

/-- the plain server's cleanup tick body: collect eligible names, then
`removeRoom` each. -/
def simpleCleanupTick (rooms : Rooms) (now : Nat) : Rooms :=
  let victims := (rooms.filter fun e => simpleCleanupEligible e.2 now).map (·.1)
  victims.foldl (fun rs n => (removeRoom rs n).1) rooms

/-- the enterprise `_findEmptyRoomsForCleanup` (`OperationHandler.js`
lines 1110–1121): rooms that are empty and pass `shouldCleanup`. -/
def proFindEmptyRoomsForCleanup (rooms : Rooms) (now : Nat) : List String :=
  (rooms.filter fun e => e.2.isEmpty && e.2.shouldCleanup now).map (·.1)

/-- the enterprise `_performCleanupCycle`: `removeRoom` every room found by
`_findEmptyRoomsForCleanup`. -/
def proCleanupTick (rooms : Rooms) (now : Nat) : Rooms :=
  (proFindEmptyRoomsForCleanup rooms now).foldl (fun rs n => (removeRoom rs n).1) rooms

/-! ## The incoming-data path of the enterprise server (`_handleSocketData`,
`OperationHandler.js` lines 626–738) -/

structure ServerSt : Type where
  peers : List (Nat × PeerSt)
  rooms : Rooms
  totalMessages : Nat
  totalErrors : Nat
  bytesReceivedTotal : Nat
deriving Repr, DecidableEq

/-- `_validatePacketStructure`: at least the 12-byte header, opening with
the 0xFB17 signature. -/
def validatePacketStructure (buffer : List Nat) : Bool :=
  buffer.length ≥ 12 && beVal (buffer.take 2) = PHOTON_SIGNATURE

/-- `_updatePeerActivity`: per-packet bookkeeping done before any parsing —
the peer's activity timestamp and traffic counters plus the server's
`totalMessages`/`bytesReceived`. -/
def updatePeerActivity (st : ServerSt) (pid : Nat) (len : Nat) (now : Nat) : ServerSt :=
  { st with
    peers := mapUpdate st.peers pid fun p =>
      { p with
        lastActivity := now,
        messagesReceived := p.messagesReceived + 1,
        bytesReceived := p.bytesReceived + len },
    totalMessages := st.totalMessages + 1,
    bytesReceivedTotal := st.bytesReceivedTotal + len }

/-- `_processIncomingData` as driven by `_handleSocketData`.  The source
hands the parser `dataBuffer.buffer`, the backing `ArrayBuffer` of the
socket buffer; the bytes that `DataView` actually sees are therefore passed
here explicitly as `raw`.  `_parseCommands` catches every decode error
itself and returns `null`, upon which `_processIncomingData` simply
returns — so a decode error reaches neither the command processing nor the
`catch` in `_handleSocketData` that increments `totalErrors`.  The command
processor is a parameter: every theorem about the decode-error path holds
for any way of processing commands (a processing exception, which does end
in that `catch`, is a different path from the decode errors the claims
concern). -/
def processIncomingData (processCmd : ServerSt → Nat → Cmd → ServerSt)
    (st : ServerSt) (pid : Nat) (buffer raw : List Nat) (now : Nat) : ServerSt :=
  if !validatePacketStructure buffer then st
  else
    let st1 := updatePeerActivity st pid buffer.length now
    if buffer.length - 12 = 0 then st1
    else
      match parseAllCommands raw with
      | none => st1
      | some cmds => cmds.foldl (fun s c => processCmd s pid c) st1

/-! ## Operation handlers

`handleJoinRoomSimple` is `OperationHandler.handleJoinRoom` from
`src/src/handlers/OperationHandler.js` (lines 90–140);
`handleAuthenticationPro` and `handleJoinRoomPro` are
`OperationHandler._handleAuthentication` / `_handleJoinRoom` from
`src/unnamed/part_000`.  A handler returns the updated registry/peer plus
the full list of messages sent to peers. -/

/-- the enterprise `PhotonPeer.authenticate` (`PhotonRoom.js` lines
2223–2260): validate the inputs (a throw is caught and returns `false`
with nothing mutated), record the auth data, move to `Connected`, and send
the op-230 OK response itself.  Nickname trimming is not modelled (the
claims use trim-stable inputs). -/
def peerAuthenticate (p : PeerSt) (nickname userId : String) :
    PeerSt × List Msg × Bool :=
  if nickname = "" ∨ nickname.length > 50 ∨ userId.length > 100 then
    (p, [], false)
  else
    let p1 := { p with
      playerName := nickname,
      userId := if userId = "" then toString p.peerId else userId,
      isAuthenticated := true,
      status := .connected }
    let (msgs, ok) := p1.sendOperationResponse OP_AUTHENTICATE RET_OK
      (.auth p1.playerName p1.userId)
    (p1, msgs, ok)

/-- the enterprise `OperationHandler._handleAuthentication` (`part_000`
lines 145–175).  `_validateAuthentication` accepts any nonempty string
user id.  On acceptance it calls `peer.authenticate` — whose result it
ignores, and which already sent an op-230 response — and then sends its own
op-230 OK response. -/
def handleAuthenticationPro (p : PeerSt) (nickname userId : String) :
    PeerSt × List Msg :=
  if userId = "" then
    (p, (p.sendOperationResponse OP_AUTHENTICATE RET_OPERATION_INVALID .misc).1)
  else
    let (p1, msgs1, _ok) := peerAuthenticate p nickname userId
    let msgs2 := (p1.sendOperationResponse OP_AUTHENTICATE RET_OK
      (.auth nickname userId)).1
    (p1, msgs1 ++ msgs2)

/-- `OperationHandler.handleJoinRoom` of the plain handler (lines 90–140):
requires `isConnected`; joins `RoomName`/`GameId` (default "DefaultRoom"),
creating the room on demand; checks the room-level password and answers
`JOIN_FAILED_DENIED` on mismatch; otherwise calls `addPeer` and answers
`ROOM_CLOSED`/`ROOM_FULL` on rejection (a success sends no handler-level
response — the join response comes from inside `addPeer`).  A construction
throw would surface via `handleOperation`'s catch as a
`PLUGIN_REPORTED_ERROR` response, included here for totality. -/
def handleJoinRoomSimple (rooms : Rooms) (totalRoomsCreated : Nat) (p : PeerSt)
    (roomName : Option String) (password : Option String) (options : RoomOptions)
    (now : Nat) : Rooms × Nat × PeerSt × List Msg :=
  if !p.isConnected then
    (rooms, totalRoomsCreated, p,
      (p.sendOperationResponse OP_JOIN_ROOM RET_OPERATION_NOT_ALLOWED .misc).1)
  else
    let name := match roomName with
      | none => "DefaultRoom"
      | some n => if n = "" then "DefaultRoom" else n
    let created : Except String (Rooms × Nat × RoomSt) := match mapGet rooms name with
      | some room => .ok (rooms, totalRoomsCreated, room)
      | none => createRoomSimple rooms totalRoomsCreated name
          { options with password := password } now
    match created with
    | .error _ =>
        (rooms, totalRoomsCreated, p,
          (p.sendOperationResponse OP_JOIN_ROOM RET_PLUGIN_REPORTED_ERROR .misc).1)
    | .ok (rooms1, trc1, room) =>
        if !room.validatePassword password then
          (rooms1, trc1, p,
            (p.sendOperationResponse OP_JOIN_ROOM RET_JOIN_FAILED_DENIED .misc).1)
        else
          let (room1, p1, msgs, ok) := addPeer room p now
          let rooms2 := mapSet rooms1 name room1
          if ok then (rooms2, trc1, p1, msgs)
          else
            let code := if !room1.isOpen then RET_ROOM_CLOSED else RET_ROOM_FULL
            (rooms2, trc1, p1,
              msgs ++ (p1.sendOperationResponse OP_JOIN_ROOM code .misc).1)

/-- the enterprise `OperationHandler._handleJoinRoom` + `_processRoomJoin` +
`_sendJoinResponse` (`part_000` lines 197–312): requires authentication and
an explicit room name; create-on-demand through the enterprise
`createRoom`; password check, then `addPeer`; and — success or failure —
one handler-level op-226 response carrying the result code (on success this
is *in addition to* the join response `addPeer` already sent). -/
def handleJoinRoomPro (rooms : Rooms) (totalRoomsCreated : Nat) (p : PeerSt)
    (roomName : Option String) (password : Option String) (options : RoomOptions)
    (configEmptyRoomTtl : Int) (now : Nat) : Rooms × Nat × PeerSt × List Msg :=
  if !p.isAuthenticated then
    (rooms, totalRoomsCreated, p,
      (p.sendOperationResponse OP_JOIN_ROOM RET_OPERATION_NOT_ALLOWED .misc).1)
  else
    match roomName with
    | none =>
        (rooms, totalRoomsCreated, p,
          (p.sendOperationResponse OP_JOIN_ROOM RET_OPERATION_INVALID .misc).1)
    | some name =>
        if name = "" then
          (rooms, totalRoomsCreated, p,
            (p.sendOperationResponse OP_JOIN_ROOM RET_OPERATION_INVALID .misc).1)
        else
          let created : Except String (Rooms × Nat × RoomSt) := match mapGet rooms name with
            | some room => .ok (rooms, totalRoomsCreated, room)
            | none => createRoomPro rooms totalRoomsCreated name
                { options with password := password } configEmptyRoomTtl now
          match created with
          | .error _ =>
              (rooms, totalRoomsCreated, p,
                (p.sendOperationResponse OP_JOIN_ROOM RET_PLUGIN_REPORTED_ERROR .misc).1)
          | .ok (rooms1, trc1, room) =>
              if !room.validatePassword password then
                (rooms1, trc1, p,
                  (p.sendOperationResponse OP_JOIN_ROOM RET_JOIN_FAILED_DENIED .misc).1)
              else
                let (room1, p1, msgs, ok) := addPeer room p now
                let rooms2 := mapSet rooms1 name room1
                let code := if ok then RET_OK
                  else if room1.isOpen then RET_ROOM_FULL else RET_ROOM_CLOSED
                (rooms2, trc1, p1,
                  msgs ++ (p1.sendOperationResponse OP_JOIN_ROOM code .misc).1)

/-! ## Predicates and fixtures used by the statements -/

/-- the master-client invariant of a room (spec §8, I2): whenever a master
id is set it is a current member and the membership flags point at exactly
it; with no master set no member is flagged.  Peer ids are positive
(`_validatePeerId` rejects anything below 1) and member keys are unique
(they key a JS `Map`) — both facts are part of the reachable-state
invariant and are needed to preserve it. -/
def masterInv (r : RoomSt) : Prop :=
  (∀ e ∈ r.peers, 1 ≤ e.1) ∧ (r.peers.map Prod.fst).Nodup ∧
  (match r.masterClientId with
   | none => ∀ e ∈ r.peers, e.2.isMasterClient = false
   | some m => mapHas r.peers m = true ∧
       ∀ e ∈ r.peers, (e.2.isMasterClient = true ↔ e.1 = m))

/-- the number of operation responses among `msgs` addressed to `target`
for operation `op`. -/
def respCount (msgs : List Msg) (target op : Nat) : Nat :=
  (msgs.filter fun m => match m with
    | .opResp t o _ _ => t = target && o = op
    | .evt _ _ _ => false).length

/-- "the parsed value is the written value": the decoded `data` denotes the
same mathematical value as the `JVal` fed to the serializer (numbers
compared as integers regardless of the width they travelled at). -/
def pvalAgrees : PVal → JVal → Prop
  | (_, .pnull), .jnull => True
  | (_, .pbool b), .jbool c => b = c
  | (_, .pnum n), .jint m => (n : Int) = m
  | (_, .pbig n), .jint m => (n : Int) = m
  | (_, .pstr s), .jstr t => s = t
  | (_, .pplayer i), .jplayer j => (i : Int) = j
  | _, _ => False

/-- the sub-class of wire values for which the round trip is provably the
identity (see the C1 theorem): null, booleans, non-negative integers below
2⁶⁴, PhotonPlayer ids below 2³², and the empty string. -/
def scalarOK (v : JVal) : Prop :=
  v = .jnull ∨ (∃ b, v = .jbool b) ∨
  (∃ n, v = .jint n ∧ 0 ≤ n ∧ n < 2 ^ 64) ∨
  (∃ pid, v = .jplayer pid ∧ 0 ≤ pid ∧ pid < 2 ^ 32) ∨
  v = .jstr []

/-- a freshly accepted peer after the server's VerifyConnect transition:
the constructor's `_initializePeerState`/`_initializeAuthState` defaults
with `setState(CONNECTED)` applied. -/
def freshPeer (pid : Nat) : PeerSt :=
  { peerId := pid
    status := .connected
    isActive := true
    socketDestroyed := false
    isMasterClient := false
    isAuthenticated := false
    hasValidPassword := false
    playerName := ""
    userId := ""
    room := none
    joinTime := none
    lastActivity := 0
    messagesReceived := 0
    bytesReceived := 0 }

/-- a concrete room as `mkPhotonRoom name {password := pw} 0` builds it
(all-default options apart from the password): the constructor defaults
with status `active` and no members. -/
def roomFixture (name : String) (pw : Option String) : RoomSt :=
  { name := name
    maxPlayers := 4
    isOpen := true
    isVisible := true
    password := pw
    playerTtl := 0
    emptyRoomTtl := 300000
    autoCleanup := true
    maxCachedEvents := 100
    status := .active
    masterClientId := none
    lastActivity := 0
    stats := ⟨0, 0, 0, 0, 0, 0, 0⟩
    peers := []
    cachedEvents := [] }

/-- the room state right after `this._peers.delete(...)` and the activity
update inside `removePeer`. -/

def afterDelete (r : RoomSt) (pid now : Nat) : RoomSt :=
  { r with peers := mapDelete r.peers pid, lastActivity := now }

/-- a three-member room whose master (id 1) is about to leave; ids are
listed out of order so the minimum-election is non-trivial. -/
def twoPeerRoom : RoomSt :=
  { roomFixture "m" none with
    masterClientId := some 1
    peers := [(1, { freshPeer 1 with isMasterClient := true, room := some "m", joinTime := some 0 }),
              (3, { freshPeer 3 with room := some "m", joinTime := some 0 }),
              (2, { freshPeer 2 with room := some "m", joinTime := some 0 })] }

/-- a room with a single flagged master member (id 1). -/
def oneMasterRoom : RoomSt :=
  { roomFixture "b" none with
    masterClientId := some 1
    peers := [(1, { freshPeer 1 with isMasterClient := true, room := some "b", joinTime := some 0 })] }

/-- a peer that is currently flagged master of *another* room ("a") — the
state a cross-room join produces, since `addPeer` never clears the flag of
an incoming peer. -/
def roguePeer : PeerSt :=
  { freshPeer 2 with isMasterClient := true, room := some "a", joinTime := some 0 }

/-! ## Codec lemmas

The `parse_*` lemmas evaluate the parser on a buffer whose shape is known
but whose payload bytes are symbolic — every control decision the parser
takes is independent of the payload, so they hold by `rfl`.  The `enc_*`
lemmas evaluate the serializer on each automatic-width branch. -/

theorem writePhotonType_jstr (k : List Nat) :
    writePhotonType (.jstr k) = (writeString k).map (TAG_STRING :: ·) := by
  cases h : writeString k <;> simp [writePhotonType, h]

theorem parse_null_buf (fuel : Nat) :
    parsePhotonType (fuel + 1) none ⟨[TAG_NULL], 0⟩ =
      some ((TAG_NULL, .pnull), ⟨[TAG_NULL], 0⟩) := rfl

theorem parse_bool_buf (fuel a : Nat) :
    parsePhotonType (fuel + 1) none ⟨[TAG_BOOLEAN, a], 0⟩ =
      some ((TAG_BOOLEAN, .pbool (beVal [a] ≠ 0)), ⟨[TAG_BOOLEAN, a], 1⟩) := rfl

theorem parse_byte_buf (fuel a : Nat) :
    parsePhotonType (fuel + 1) none ⟨[TAG_BYTE, a], 0⟩ =
      some ((TAG_BYTE, .pnum (beVal [a])), ⟨[TAG_BYTE, a], 1⟩) := rfl

theorem parse_short_buf (fuel a b : Nat) :
    parsePhotonType (fuel + 1) none ⟨[TAG_SHORT, a, b], 0⟩ =
      some ((TAG_SHORT, .pnum (beVal [a, b])), ⟨[TAG_SHORT, a, b], 2⟩) := rfl

theorem parse_int_buf (fuel a b c d : Nat) :
    parsePhotonType (fuel + 1) none ⟨[TAG_INTEGER, a, b, c, d], 0⟩ =
      some ((TAG_INTEGER, .pnum (beVal [a, b, c, d])), ⟨[TAG_INTEGER, a, b, c, d], 4⟩) := rfl

theorem parse_long_buf (fuel a b c d e f g h : Nat) :
    parsePhotonType (fuel + 1) none ⟨[TAG_LONG, a, b, c, d, e, f, g, h], 0⟩ =
      some ((TAG_LONG, .pbig (beVal [a, b, c, d, e, f, g, h])),
        ⟨[TAG_LONG, a, b, c, d, e, f, g, h], 8⟩) := rfl

theorem parse_player_buf (fuel a b c d : Nat) :
    parsePhotonType (fuel + 1) none ⟨[TAG_CUSTOM_DATA, 80, 0, 4, a, b, c, d], 0⟩ =
      some ((TAG_CUSTOM_DATA, .pplayer (beVal [a, b, c, d])),
        ⟨[TAG_CUSTOM_DATA, 80, 0, 4, a, b, c, d], 7⟩) := rfl

theorem parse_emptystr_buf (fuel : Nat) :
    parsePhotonType (fuel + 1) none ⟨[TAG_STRING, 0, 0], 0⟩ =
      some ((TAG_STRING, .pstr []), ⟨[TAG_STRING, 0, 0], 2⟩) := rfl

theorem enc_byte (n : Int) (h0 : -128 ≤ n) (h1 : n ≤ 127) :
    writePhotonType (.jint n) =
      some [TAG_BYTE, (if n < 0 then n + 256 else n).toNat] := by
  simp only [writePhotonType]
  rw [if_pos (by omega : -128 ≤ n ∧ n ≤ 127),
    writeU8, if_pos (by omega : (0:Int) ≤ (if n < 0 then n + 256 else n) ∧
      (if n < 0 then n + 256 else n) ≤ 255)]
  rfl

theorem enc_short (n : Int) (hr : ¬(-128 ≤ n ∧ n ≤ 127)) (h0 : -32768 ≤ n)
    (h1 : n ≤ 32767) :
    writePhotonType (.jint n) =
      some (TAG_SHORT :: u16be (if n < 0 then n + 65536 else n).toNat) := by
  simp only [writePhotonType]
  rw [if_neg hr, if_pos (by omega : -32768 ≤ n ∧ n ≤ 32767),
    writeU16, if_pos (by omega : (0:Int) ≤ (if n < 0 then n + 65536 else n) ∧
      (if n < 0 then n + 65536 else n) ≤ 65535)]
  rfl

theorem enc_int (n : Int) (hr1 : ¬(-128 ≤ n ∧ n ≤ 127)) (hr2 : ¬(-32768 ≤ n ∧ n ≤ 32767))
    (h0 : -2147483648 ≤ n) (h1 : n ≤ 2147483647) :
    writePhotonType (.jint n) =
      some (TAG_INTEGER :: u32be (if n < 0 then n + 4294967296 else n).toNat) := by
  simp only [writePhotonType]
  rw [if_neg hr1, if_neg hr2, if_pos (by omega : -2147483648 ≤ n ∧ n ≤ 2147483647),
    writeU32, if_pos (by omega : (0:Int) ≤ (if n < 0 then n + 4294967296 else n) ∧
      (if n < 0 then n + 4294967296 else n) ≤ 4294967295)]
  rfl

theorem enc_long (n : Int) (hr1 : ¬(-128 ≤ n ∧ n ≤ 127)) (hr2 : ¬(-32768 ≤ n ∧ n ≤ 32767))
    (hr3 : ¬(-2147483648 ≤ n ∧ n ≤ 2147483647)) (h0 : 0 ≤ n) (h1 : n < 2 ^ 64) :
    writePhotonType (.jint n) = some (TAG_LONG :: u64be n.toNat) := by
  simp only [writePhotonType]
  rw [if_neg hr1, if_neg hr2, if_neg hr3,
    writeU64, if_pos (by omega : (0:Int) ≤ n ∧ n < 2 ^ 64)]
  rfl

theorem enc_long_throws (n : Int) (hr1 : ¬(-128 ≤ n ∧ n ≤ 127))
    (hr2 : ¬(-32768 ≤ n ∧ n ≤ 32767)) (hr3 : ¬(-2147483648 ≤ n ∧ n ≤ 2147483647))
    (h : n < 0 ∨ 2 ^ 64 ≤ n) :
    writePhotonType (.jint n) = none := by
  simp only [writePhotonType]
  rw [if_neg hr1, if_neg hr2, if_neg hr3,
    writeU64, if_neg (by omega : ¬((0:Int) ≤ n ∧ n < 2 ^ 64))]
  rfl

theorem enc_player (pid : Int) (h0 : 0 ≤ pid) (h1 : pid < 2 ^ 32) :
    writePhotonType (.jplayer pid) =
      some (TAG_CUSTOM_DATA :: 80 :: ([0, 4] ++ u32be pid.toNat)) := by
  have hw : writeU32 pid = some (u32be pid.toNat) := by
    rw [writeU32, if_pos (by omega : (0:Int) ≤ pid ∧ pid ≤ 4294967295)]
  have hlen : (((u32be pid.toNat).length : Nat) : Int) = ((4 : Nat) : Int) := by
    simp [u32be]
  have hw16 : writeU16 ((4 : Nat) : Int) = some [0, 4] := rfl
  rw [show writePhotonType (.jplayer pid) =
        (writeU32 pid).bind (fun payload =>
          (writeU16 (payload.length : Int)).bind fun lenBytes =>
            some (TAG_CUSTOM_DATA :: 80 :: (lenBytes ++ payload))) from rfl,
      hw, Option.some_bind, hlen, hw16, Option.some_bind]

theorem rt_byte (fuel : Nat) (n : Int) (h0 : 0 ≤ n) (h1 : n ≤ 127) :
    roundTrip (fuel + 1) (.jint n) = some (TAG_BYTE, .pnum n.toNat) := by
  rw [roundTrip, enc_byte n (by omega) h1, if_neg (by omega : ¬ n < 0),
    Option.some_bind, parse_byte_buf, Option.map_some']
  simp only [Option.some.injEq, Prod.mk.injEq, PData.pnum.injEq, beVal, List.foldl_cons, List.foldl_nil, true_and]
  omega

theorem rt_byte_neg (fuel : Nat) (n : Int) (h0 : -128 ≤ n) (h1 : n < 0) :
    roundTrip (fuel + 1) (.jint n) = some (TAG_BYTE, .pnum (n + 256).toNat) := by
  rw [roundTrip, enc_byte n h0 (by omega), if_pos h1,
    Option.some_bind, parse_byte_buf, Option.map_some']
  simp only [Option.some.injEq, Prod.mk.injEq, PData.pnum.injEq, beVal, List.foldl_cons, List.foldl_nil, true_and]
  omega

theorem rt_short (fuel : Nat) (n : Int) (h0 : 128 ≤ n) (h1 : n ≤ 32767) :
    roundTrip (fuel + 1) (.jint n) = some (TAG_SHORT, .pnum n.toNat) := by
  rw [roundTrip, enc_short n (by omega) (by omega) h1, if_neg (by omega : ¬ n < 0),
    u16be, Option.some_bind, parse_short_buf, Option.map_some']
  simp only [Option.some.injEq, Prod.mk.injEq, PData.pnum.injEq, beVal, List.foldl_cons, List.foldl_nil, true_and]
  omega

theorem rt_short_neg (fuel : Nat) (n : Int) (h0 : -32768 ≤ n) (h1 : n < -128) :
    roundTrip (fuel + 1) (.jint n) = some (TAG_SHORT, .pnum (n + 65536).toNat) := by
  rw [roundTrip, enc_short n (by omega) h0 (by omega), if_pos (by omega : n < 0),
    u16be, Option.some_bind, parse_short_buf, Option.map_some']
  simp only [Option.some.injEq, Prod.mk.injEq, PData.pnum.injEq, beVal, List.foldl_cons, List.foldl_nil, true_and]
  omega

theorem rt_int32 (fuel : Nat) (n : Int) (h0 : 32768 ≤ n) (h1 : n ≤ 2147483647) :
    roundTrip (fuel + 1) (.jint n) = some (TAG_INTEGER, .pnum n.toNat) := by
  rw [roundTrip, enc_int n (by omega) (by omega) (by omega) h1,
    if_neg (by omega : ¬ n < 0), u32be, Option.some_bind, parse_int_buf,
    Option.map_some']
  simp only [Option.some.injEq, Prod.mk.injEq, PData.pnum.injEq, beVal, List.foldl_cons, List.foldl_nil, true_and]
  omega

theorem rt_int32_neg (fuel : Nat) (n : Int) (h0 : -2147483648 ≤ n) (h1 : n < -32768) :
    roundTrip (fuel + 1) (.jint n) = some (TAG_INTEGER, .pnum (n + 4294967296).toNat) := by
  rw [roundTrip, enc_int n (by omega) (by omega) h0 (by omega),
    if_pos (by omega : n < 0), u32be, Option.some_bind, parse_int_buf,
    Option.map_some']
  simp only [Option.some.injEq, Prod.mk.injEq, PData.pnum.injEq, beVal, List.foldl_cons, List.foldl_nil, true_and]
  omega

theorem rt_long (fuel : Nat) (n : Int) (h0 : 2147483648 ≤ n) (h1 : n < 2 ^ 64) :
    roundTrip (fuel + 1) (.jint n) = some (TAG_LONG, .pbig n.toNat) := by
  rw [roundTrip, enc_long n (by omega) (by omega) (by omega) (by omega) h1,
    u64be, Option.some_bind, parse_long_buf, Option.map_some']
  simp only [Option.some.injEq, Prod.mk.injEq, PData.pbig.injEq, beVal, List.foldl_cons, List.foldl_nil, true_and]
  omega

theorem rt_player (fuel : Nat) (pid : Int) (h0 : 0 ≤ pid) (h1 : pid < 2 ^ 32) :
    roundTrip (fuel + 1) (.jplayer pid) = some (TAG_CUSTOM_DATA, .pplayer pid.toNat) := by
  rw [roundTrip, enc_player pid h0 h1, u32be, Option.some_bind]
  rw [show ((TAG_CUSTOM_DATA :: 80 :: ([0, 4] ++
        [pid.toNat / 2 ^ 24 % 256, pid.toNat / 2 ^ 16 % 256,
         pid.toNat / 2 ^ 8 % 256, pid.toNat % 256])) : List Nat) =
      [TAG_CUSTOM_DATA, 80, 0, 4, pid.toNat / 2 ^ 24 % 256, pid.toNat / 2 ^ 16 % 256,
        pid.toNat / 2 ^ 8 % 256, pid.toNat % 256] from rfl,
    parse_player_buf, Option.map_some']
  simp only [Option.some.injEq, Prod.mk.injEq, PData.pplayer.injEq, beVal, List.foldl_cons, List.foldl_nil, true_and]
  omega

/-! ## Claim C1 -/

/-- C1 (amended): serializing with `writePhotonType` and parsing back with
`parsePhotonType` restores the value for the scalar class `scalarOK` —
null, booleans, non-negative integers below 2⁶⁴, PhotonPlayer custom data
with id below 2³², and the empty string (at any parser nesting fuel).  The
claim as stated fails for negative integers, which the parser reads back
unsigned (see the counterexample), and for nonempty strings and byte
arrays, whose payload `readFixedBytes` mis-slices at the end of a buffer
because `increment` clamps the offset at `byteLength - 1`. -/
theorem photon_roundTrip_restores_scalars (fuel : Nat) (v : JVal) (h : scalarOK v) :
    ∃ p, roundTrip (fuel + 1) v = some p ∧ pvalAgrees p v := by
  rcases h with rfl | ⟨b, rfl⟩ | ⟨n, rfl, h0, h1⟩ | ⟨pid, rfl, h0, h1⟩ | rfl
  · exact ⟨(TAG_NULL, .pnull), rfl, trivial⟩
  · cases b
    · exact ⟨(TAG_BOOLEAN, .pbool false), rfl, rfl⟩
    · exact ⟨(TAG_BOOLEAN, .pbool true), rfl, rfl⟩
  · by_cases hb : n ≤ 127
    · exact ⟨(TAG_BYTE, .pnum n.toNat), rt_byte fuel n h0 hb,
        show ((n.toNat : Int) = n) by omega⟩
    · by_cases hs : n ≤ 32767
      · exact ⟨(TAG_SHORT, .pnum n.toNat), rt_short fuel n (by omega) hs,
          show ((n.toNat : Int) = n) by omega⟩
      · by_cases hi : n ≤ 2147483647
        · exact ⟨(TAG_INTEGER, .pnum n.toNat), rt_int32 fuel n (by omega) hi,
            show ((n.toNat : Int) = n) by omega⟩
        · exact ⟨(TAG_LONG, .pbig n.toNat), rt_long fuel n (by omega) h1,
            show ((n.toNat : Int) = n) by omega⟩
  · exact ⟨(TAG_CUSTOM_DATA, .pplayer pid.toNat), rt_player fuel pid h0 h1,
      show ((pid.toNat : Int) = pid) by omega⟩
  · exact ⟨(TAG_STRING, .pstr []), rfl, rfl⟩

/-- C1 counterexample: the wire value −1 (no custom data at all) serializes
to the byte-tagged pair `[0x62, 0xFF]`, and parsing that back yields the
*unsigned* 255 — `parseByte` never re-applies the sign —, so
decode(encode(−1)) ≠ −1. -/
theorem photon_roundTrip_neg_one_counterexample :
    writePhotonType (.jint (-1)) = some [TAG_BYTE, 255] ∧
    roundTrip 1 (.jint (-1)) = some (TAG_BYTE, .pnum 255) ∧
    ¬ pvalAgrees (TAG_BYTE, .pnum 255) (.jint (-1)) :=
  ⟨rfl, rfl, by simp [pvalAgrees]⟩

/-- C1 witness: the scalar round-trip theorem applied at the concrete
value 300. -/
theorem photon_roundTrip_restores_scalars_witness :
    ∃ p, roundTrip 1 (.jint 300) = some p ∧ pvalAgrees p (.jint 300) :=
  photon_roundTrip_restores_scalars 0 (.jint 300)
    (Or.inr (Or.inr (Or.inl ⟨300, rfl, by norm_num, by norm_num⟩)))

/-! ## Claim C6 -/

/-- C6 (amended): the serializer picks the narrowest signed tag that fits
the integer — byte for [−128,127], short for the remaining [−32768,32767],
int for the remaining 32-bit range, long beyond (where a negative value
makes `writeBigUInt64BE` throw, and a non-negative one below 2⁶⁴ is
written) — and decoding the produced bytes yields the same integer back
for *non-negative* values, while a negative value decodes to its unsigned
reinterpretation value + 2^width (the parser reads every width unsigned). -/
theorem photon_int_width_selection_and_decode :
    (∀ n : Int, -128 ≤ n → n ≤ 127 →
      writePhotonType (.jint n) = some [TAG_BYTE, (if n < 0 then n + 256 else n).toNat]) ∧
    (∀ n : Int, ¬(-128 ≤ n ∧ n ≤ 127) → -32768 ≤ n → n ≤ 32767 →
      writePhotonType (.jint n) =
        some (TAG_SHORT :: u16be (if n < 0 then n + 65536 else n).toNat)) ∧
    (∀ n : Int, ¬(-32768 ≤ n ∧ n ≤ 32767) → -2147483648 ≤ n → n ≤ 2147483647 →
      writePhotonType (.jint n) =
        some (TAG_INTEGER :: u32be (if n < 0 then n + 4294967296 else n).toNat)) ∧
    (∀ n : Int, ¬(-2147483648 ≤ n ∧ n ≤ 2147483647) → 0 ≤ n → n < 2 ^ 64 →
      writePhotonType (.jint n) = some (TAG_LONG :: u64be n.toNat)) ∧
    (∀ n : Int, ¬(-2147483648 ≤ n ∧ n ≤ 2147483647) → (n < 0 ∨ 2 ^ 64 ≤ n) →
      writePhotonType (.jint n) = none) ∧
    (∀ fuel : Nat, ∀ n : Int, 0 ≤ n → n < 2 ^ 64 →
      ∃ p, roundTrip (fuel + 1) (.jint n) = some p ∧ pvalAgrees p (.jint n)) ∧
    (∀ fuel : Nat, ∀ n : Int, -128 ≤ n → n < 0 →
      roundTrip (fuel + 1) (.jint n) = some (TAG_BYTE, .pnum (n + 256).toNat)) ∧
    (∀ fuel : Nat, ∀ n : Int, -32768 ≤ n → n < -128 →
      roundTrip (fuel + 1) (.jint n) = some (TAG_SHORT, .pnum (n + 65536).toNat)) ∧
    (∀ fuel : Nat, ∀ n : Int, -2147483648 ≤ n → n < -32768 →
      roundTrip (fuel + 1) (.jint n) = some (TAG_INTEGER, .pnum (n + 4294967296).toNat)) := by
  refine ⟨fun n h0 h1 => enc_byte n h0 h1,
    fun n hr h0 h1 => enc_short n hr h0 h1,
    fun n hr h0 h1 => enc_int n (by omega) hr h0 h1,
    fun n hr h0 h1 => enc_long n (by omega) (by omega) hr h0 h1,
    fun n hr h => enc_long_throws n (by omega) (by omega) hr (by omega),
    fun fuel n h0 h1 => ?_,
    fun fuel n h0 h1 => rt_byte_neg fuel n h0 h1,
    fun fuel n h0 h1 => rt_short_neg fuel n h0 h1,
    fun fuel n h0 h1 => rt_int32_neg fuel n h0 h1⟩
  by_cases hb : n ≤ 127
  · exact ⟨(TAG_BYTE, .pnum n.toNat), rt_byte fuel n h0 hb,
      show ((n.toNat : Int) = n) by omega⟩
  · by_cases hs : n ≤ 32767
    · exact ⟨(TAG_SHORT, .pnum n.toNat), rt_short fuel n (by omega) hs,
        show ((n.toNat : Int) = n) by omega⟩
    · by_cases hi : n ≤ 2147483647
      · exact ⟨(TAG_INTEGER, .pnum n.toNat), rt_int32 fuel n (by omega) hi,
          show ((n.toNat : Int) = n) by omega⟩
      · exact ⟨(TAG_LONG, .pbig n.toNat), rt_long fuel n (by omega) h1,
          show ((n.toNat : Int) = n) by omega⟩

/-- C6 counterexample: −2 is encoded at byte width (the narrowest tag) but
decodes to 254, not −2 — decoding does not yield negative integers back. -/
theorem photon_int_decode_neg_counterexample :
    roundTrip 1 (.jint (-2)) = some (TAG_BYTE, .pnum 254) ∧ ((254 : Int) ≠ -2) :=
  ⟨rfl, by decide⟩

/-- C6 witness: the width-selection/decode theorem applied at 5, 300,
40000, 2²³ + 2³¹, −5 (negative long throwing is exercised at −2³¹ − 1, and
the negative reinterpretations at −5, −1000, −70000). -/
theorem photon_int_width_selection_and_decode_witness :
    writePhotonType (.jint 5) = some [TAG_BYTE, ((if (5:Int) < 0 then 5 + 256 else 5 : Int)).toNat] ∧
    writePhotonType (.jint 300) =
      some (TAG_SHORT :: u16be ((if (300:Int) < 0 then 300 + 65536 else 300 : Int)).toNat) ∧
    writePhotonType (.jint 40000) =
      some (TAG_INTEGER :: u32be ((if (40000:Int) < 0 then 40000 + 4294967296 else 40000 : Int)).toNat) ∧
    writePhotonType (.jint 2147483648) = some (TAG_LONG :: u64be (2147483648 : Int).toNat) ∧
    writePhotonType (.jint (-2147483649)) = none ∧
    (∃ p, roundTrip 1 (.jint 7) = some p ∧ pvalAgrees p (.jint 7)) ∧
    roundTrip 1 (.jint (-5)) = some (TAG_BYTE, .pnum ((-5 : Int) + 256).toNat) ∧
    roundTrip 1 (.jint (-1000)) = some (TAG_SHORT, .pnum ((-1000 : Int) + 65536).toNat) ∧
    roundTrip 1 (.jint (-70000)) = some (TAG_INTEGER, .pnum ((-70000 : Int) + 4294967296).toNat) :=
  ⟨photon_int_width_selection_and_decode.1 5 (by norm_num) (by norm_num),
   photon_int_width_selection_and_decode.2.1 300 (by norm_num) (by norm_num) (by norm_num),
   photon_int_width_selection_and_decode.2.2.1 40000 (by norm_num) (by norm_num) (by norm_num),
   photon_int_width_selection_and_decode.2.2.2.1 2147483648 (by norm_num) (by norm_num) (by norm_num),
   photon_int_width_selection_and_decode.2.2.2.2.1 (-2147483649) (by norm_num) (by norm_num),
   photon_int_width_selection_and_decode.2.2.2.2.2.1 0 7 (by norm_num) (by norm_num),
   photon_int_width_selection_and_decode.2.2.2.2.2.2.1 0 (-5) (by norm_num) (by norm_num),
   photon_int_width_selection_and_decode.2.2.2.2.2.2.2.1 0 (-1000) (by norm_num) (by norm_num),
   photon_int_width_selection_and_decode.2.2.2.2.2.2.2.2 0 (-70000) (by norm_num) (by norm_num)⟩

/-! ## Map and room lemmas -/

theorem mapHas_iff {κ α : Type} [DecidableEq κ] (m : List (κ × α)) (k : κ) :
    mapHas m k = true ↔ ∃ e ∈ m, e.1 = k := by
  simp [mapHas, List.any_eq_true]

theorem mapHas_of_mem {κ α : Type} [DecidableEq κ] {m : List (κ × α)} {e : κ × α}
    (h : e ∈ m) : mapHas m e.1 = true :=
  (mapHas_iff m e.1).mpr ⟨e, h, rfl⟩

theorem mapUpdate_keys {κ α : Type} [DecidableEq κ] (m : List (κ × α)) (k : κ)
    (f : α → α) : (mapUpdate m k f).map Prod.fst = m.map Prod.fst := by
  induction m with
  | nil => rfl
  | cons a tl ih =>
      simp only [mapUpdate, List.map_cons] at *
      rw [ih]
      split <;> rfl

theorem mapUpdate_mem {κ α : Type} [DecidableEq κ] {m : List (κ × α)} {k : κ}
    {f : α → α} {e : κ × α} (h : e ∈ mapUpdate m k f) :
    ∃ e0 ∈ m, e = (if e0.1 = k then (e0.1, f e0.2) else e0) := by
  rcases List.mem_map.mp h with ⟨e0, he0, heq⟩
  exact ⟨e0, he0, heq.symm⟩

theorem mapUpdate_has {κ α : Type} [DecidableEq κ] (m : List (κ × α)) (k : κ)
    (f : α → α) (j : κ) : mapHas (mapUpdate m k f) j = mapHas m j := by
  induction m with
  | nil => rfl
  | cons a tl ih =>
      simp only [mapUpdate, mapHas, List.map_cons, List.any_cons] at *
      rw [ih]
      split <;> rfl

theorem mapDelete_mem {κ α : Type} [DecidableEq κ] {m : List (κ × α)} {k : κ}
    {e : κ × α} : e ∈ mapDelete m k ↔ e ∈ m ∧ e.1 ≠ k := by
  simp [mapDelete, List.mem_filter]

theorem mapDelete_has_self {κ α : Type} [DecidableEq κ] (m : List (κ × α)) (k : κ) :
    mapHas (mapDelete m k) k = false := by
  rw [Bool.eq_false_iff]
  intro h
  rcases (mapHas_iff _ _).mp h with ⟨e, he, hk⟩
  exact absurd hk (mapDelete_mem.mp he).2

theorem mapDelete_keys_sublist {κ α : Type} [DecidableEq κ] (m : List (κ × α)) (k : κ) :
    ((mapDelete m k).map Prod.fst).Sublist (m.map Prod.fst) :=
  (List.filter_sublist m).map Prod.fst

theorem mapSet_not_has {κ α : Type} [DecidableEq κ] (m : List (κ × α)) (k : κ)
    (v : α) (h : mapHas m k = false) : mapSet m k v = m ++ [(k, v)] := by
  induction m with
  | nil => rfl
  | cons a tl ih =>
      simp only [mapHas, List.any_cons, Bool.or_eq_false_iff] at h
      simp only [mapSet, List.cons_append]
      rw [if_neg (by simpa using h.1), ih h.2]

theorem isConnected_canSend (p : PeerSt) (h : p.isConnected = true) :
    p.canSendCommand = true := by
  unfold PeerSt.isConnected PeerSt.canSendCommand at *
  simp only [Bool.and_eq_true, decide_eq_true_eq] at *
  obtain ⟨⟨hst, hact⟩, hdes⟩ := h
  refine ⟨⟨by simpa using hdes, hact⟩, by simp [hst]⟩

theorem broadcastSends_reaches (code : Nat) (params : Params) (ex : Option Nat)
    (l : List (Nat × PeerSt)) (e : Nat × PeerSt) (he : e ∈ l)
    (hskip : excludes ex e.1 = false) (hc : e.2.isConnected = true) :
    Msg.evt e.2.peerId code params ∈ broadcastSends l code params ex := by
  induction l with
  | nil => cases he
  | cons a tl ih =>
      unfold broadcastSends at *
      simp only [List.foldr_cons]
      rcases List.mem_cons.mp he with rfl | htl
      · rw [if_neg (by simp [hskip]), if_pos hc]
        simp [PeerSt.sendEvent, isConnected_canSend _ hc]
      · have hm := ih htl
        split
        · exact hm
        · split
          · exact List.mem_append_right _ hm
          · exact hm

theorem broadcastEvent_peers (r : RoomSt) (code : Nat) (params : Params)
    (ex : Option Nat) : (broadcastEvent r code params ex).1.peers = r.peers := rfl

theorem broadcastEvent_master (r : RoomSt) (code : Nat) (params : Params)
    (ex : Option Nat) :
    (broadcastEvent r code params ex).1.masterClientId = r.masterClientId := rfl

theorem validateFail_peer_eq (r : RoomSt) (p : PeerSt) (e : String)
    (h : (validatePeerForJoin r p).2 = some e) : (validatePeerForJoin r p).1 = p := by
  unfold validatePeerForJoin at *
  split_ifs at h ⊢ <;> try rfl
  unfold validatePeerPassword PeerSt.validatePassword at *
  cases hp : r.password
  · simp_all
  · simp_all
    split_ifs at h ⊢ <;> simp_all

/-- the failure path of `addPeer`: a caught validation error leaves
everything untouched. -/
theorem addPeer_fail_eq (r : RoomSt) (p : PeerSt) (now : Nat)
    (h : (addPeer r p now).2.2.2 = false) : addPeer r p now = (r, p, [], false) := by
  unfold addPeer at *
  rcases hv : validatePeerForJoin r p with ⟨p1, err⟩
  rw [hv] at h
  cases err with
  | none => simp at h
  | some e =>
      have hp : p1 = p := by
        have h2 := validateFail_peer_eq r p e (by rw [hv])
        rw [hv] at h2; exact h2
      simp [hp]

theorem head_mergeSort_min (l : List Nat) (m : Nat) (rest : List Nat)
    (h : l.mergeSort (· ≤ ·) = m :: rest) : m ∈ l ∧ ∀ x ∈ l, m ≤ x := by
  have hp : (l.mergeSort (· ≤ ·)).Perm l := List.mergeSort_perm l _
  rw [h] at hp
  refine ⟨hp.mem_iff.mp (List.mem_cons_self m rest), fun x hx => ?_⟩
  rcases List.mem_cons.mp (hp.mem_iff.mpr hx) with rfl | hxr
  · exact Nat.le_refl x
  · have hs := List.sorted_mergeSort' l
    rw [h] at hs
    exact (List.sorted_cons.mp hs).1 x hxr

/-! ## Claim C10 -/

/-- C10: a rejected `addPeer` — whatever the reason: inactive room, closed
room, duplicate member, full room, password rejection — returns `false`
and leaves everything untouched: the room (members, master id, cached
events, statistics, activity) and the peer (room reference included) come
back exactly as they went in, and no message is sent.  The `catch` in
`addPeer` converts the validation throw to `false` before any mutation. -/
theorem photon_addPeer_rejection_leaves_state_unchanged (r : RoomSt) (p : PeerSt)
    (now : Nat) (h : (addPeer r p now).2.2.2 = false) :
    addPeer r p now = (r, p, [], false) :=
  addPeer_fail_eq r p now h

/-- C10 witness: the password-protected fixture room rejects a fresh peer
(whose `hasValidPassword` is `false`), and the state is returned
unchanged. -/
theorem photon_addPeer_rejection_leaves_state_unchanged_witness :
    (addPeer (roomFixture "p1" (some "secret")) (freshPeer 7) 5).2.2.2 = false ∧
    addPeer (roomFixture "p1" (some "secret")) (freshPeer 7) 5 =
      (roomFixture "p1" (some "secret"), freshPeer 7, [], false) :=
  ⟨rfl, photon_addPeer_rejection_leaves_state_unchanged _ _ _ rfl⟩

theorem mapGet_of_has {κ α : Type} [DecidableEq κ] (m : List (κ × α)) (k : κ)
    (h : mapHas m k = true) : ∃ v, mapGet m k = some v := by
  induction m with
  | nil => simp [mapHas] at h
  | cons a tl ih =>
      by_cases hk : a.1 = k
      · exact ⟨a.2, by simp [mapGet, hk]⟩
      · simp only [mapHas, List.any_cons, Bool.or_eq_true, decide_eq_true_eq] at h
        rcases h with h | h
        · exact absurd h hk
        · rcases ih h with ⟨v, hv⟩
          exact ⟨v, by simp [mapGet, hk, mapGet] at hv ⊢; simpa [mapGet] using hv⟩

theorem setMasterInternal_master (r : RoomSt) (t : Nat) :
    (setMasterClientInternal r t).1.masterClientId = some t := by
  unfold setMasterClientInternal broadcastEvent
  cases r.masterClientId <;> dsimp only <;> split_ifs <;> rfl

theorem setMasterInternal_keys (r : RoomSt) (t : Nat) :
    (setMasterClientInternal r t).1.peers.map Prod.fst = r.peers.map Prod.fst := by
  unfold setMasterClientInternal broadcastEvent
  cases r.masterClientId <;> dsimp only <;> split_ifs <;> simp [mapUpdate_keys]

theorem setMasterInternal_msgs (r : RoomSt) (t : Nat) :
    (setMasterClientInternal r t).2 =
      broadcastSends (setMasterClientInternal r t).1.peers EV_MASTER_CLIENT_SWITCHED
        (.masterSwitched t) none := by
  unfold setMasterClientInternal broadcastEvent
  cases r.masterClientId <;> dsimp only <;> split_ifs <;> rfl

theorem selectNewMaster_spec (r : RoomSt) (h : ¬ r.peers.length = 0) :
    ∃ m, (selectNewMasterClient r).1.masterClientId = some m ∧
      m ∈ r.peers.map Prod.fst ∧ (∀ x ∈ r.peers.map Prod.fst, m ≤ x) ∧
      (selectNewMasterClient r).1.peers.map Prod.fst = r.peers.map Prod.fst ∧
      ∀ e ∈ (selectNewMasterClient r).1.peers, e.2.isConnected = true →
        Msg.evt e.2.peerId EV_MASTER_CLIENT_SWITCHED (.masterSwitched m) ∈
          (selectNewMasterClient r).2 := by
  unfold selectNewMasterClient
  rw [if_neg h]
  cases hsort : (r.peers.map Prod.fst).mergeSort (· ≤ ·) with
  | nil =>
      exfalso
      have hp := List.mergeSort_perm (r.peers.map Prod.fst) (· ≤ ·)
      rw [hsort] at hp
      have := hp.length_eq
      simp at this
      exact h this.symm
  | cons m rest =>
      obtain ⟨hmem, hmin⟩ := head_mergeSort_min _ _ _ hsort
      refine ⟨m, setMasterInternal_master r m, hmem, hmin, setMasterInternal_keys r m, ?_⟩
      intro e he hc
      rw [setMasterInternal_msgs]
      exact broadcastSends_reaches _ _ none _ e he rfl hc

theorem removePeer_none_eq (r : RoomSt) (pid now : Nat)
    (h : mapGet r.peers pid = none) : removePeer r pid now = (r, none, [], false) := by
  unfold removePeer
  rw [h]

theorem removePeer_notmaster_proj (r : RoomSt) (pid now : Nat) (p : PeerSt)
    (hg : mapGet r.peers pid = some p) (hne : ¬ r.masterClientId = some pid) :
    (removePeer r pid now).1.peers = mapDelete r.peers pid ∧
    (removePeer r pid now).1.masterClientId = r.masterClientId := by
  unfold removePeer
  rw [hg]
  try dsimp only
  rw [if_neg hne]
  exact ⟨rfl, rfl⟩

theorem removePeer_master_proj (r : RoomSt) (pid now : Nat) (p : PeerSt)
    (hg : mapGet r.peers pid = some p) (hm : r.masterClientId = some pid) :
    (removePeer r pid now).1.peers =
      (selectNewMasterClient (afterDelete r pid now)).1.peers ∧
    (removePeer r pid now).1.masterClientId =
      (selectNewMasterClient (afterDelete r pid now)).1.masterClientId ∧
    ∀ msg ∈ (selectNewMasterClient (afterDelete r pid now)).2,
      msg ∈ (removePeer r pid now).2.2.1 := by
  unfold removePeer
  rw [hg]
  try dsimp only
  rw [if_pos hm]
  rcases hsel : selectNewMasterClient (afterDelete r pid now) with ⟨r2, sm⟩
  rw [show ({ r with peers := mapDelete r.peers pid, lastActivity := now } : RoomSt) = afterDelete r pid now from rfl, hsel]
  dsimp only [broadcastEvent]
  exact ⟨rfl, rfl, fun msg hmsg => List.mem_append_left _ hmsg⟩

theorem clear_flag_all_false (l : List (Nat × PeerSt)) (q : Nat)
    (hflags : ∀ e ∈ l, (e.2.isMasterClient = true ↔ e.1 = q)) :
    ∀ e ∈ mapUpdate l q (fun x => { x with isMasterClient := false }),
      e.2.isMasterClient = false := by
  intro e he
  rcases mapUpdate_mem he with ⟨e0, he0, heq⟩
  by_cases h0 : e0.1 = q
  · rw [heq, if_pos h0]
  · rw [heq, if_neg h0]
    cases hb : e0.2.isMasterClient
    · rfl
    · exact absurd ((hflags e0 he0).mp hb) h0

theorem set_flag_pointwise (l : List (Nat × PeerSt)) (t : Nat)
    (hflags : ∀ e ∈ l, e.2.isMasterClient = false) :
    ∀ e ∈ mapUpdate l t (fun x => { x with isMasterClient := true }),
      (e.2.isMasterClient = true ↔ e.1 = t) := by
  intro e he
  rcases mapUpdate_mem he with ⟨e0, he0, heq⟩
  by_cases h0 : e0.1 = t
  · rw [heq, if_pos h0]
    exact ⟨fun _ => h0, fun _ => rfl⟩
  · rw [heq, if_neg h0]
    constructor
    · intro hb
      rw [hflags e0 he0] at hb
      exact absurd hb (by simp)
    · intro h1
      exact absurd h1 h0

theorem mapUpdate_inv_base (l : List (Nat × PeerSt)) (k : Nat) (f : PeerSt → PeerSt)
    (hpos : ∀ e ∈ l, 1 ≤ e.1) (hnodup : (l.map Prod.fst).Nodup) :
    (∀ e ∈ mapUpdate l k f, 1 ≤ e.1) ∧ ((mapUpdate l k f).map Prod.fst).Nodup := by
  refine ⟨fun e he => ?_, by rw [mapUpdate_keys]; exact hnodup⟩
  rcases mapUpdate_mem he with ⟨e0, he0, heq⟩
  have h1 := hpos e0 he0
  rw [heq]
  split <;> exact h1

theorem masterInv_build (r : RoomSt) (m : Nat) (hm : r.masterClientId = some m)
    (hpos : ∀ e ∈ r.peers, 1 ≤ e.1) (hnodup : (r.peers.map Prod.fst).Nodup)
    (hhas : mapHas r.peers m = true)
    (hflag : ∀ e ∈ r.peers, (e.2.isMasterClient = true ↔ e.1 = m)) : masterInv r := by
  unfold masterInv
  rw [hm]
  exact ⟨hpos, hnodup, hhas, hflag⟩

theorem masterInv_build_none (r : RoomSt) (hm : r.masterClientId = none)
    (hpos : ∀ e ∈ r.peers, 1 ≤ e.1) (hnodup : (r.peers.map Prod.fst).Nodup)
    (hflag : ∀ e ∈ r.peers, e.2.isMasterClient = false) : masterInv r := by
  unfold masterInv
  rw [hm]
  exact ⟨hpos, hnodup, hflag⟩

theorem setMasterInternal_peers_none (r : RoomSt) (t : Nat)
    (hm : r.masterClientId = none) (ht : mapHas r.peers t = true) :
    (setMasterClientInternal r t).1.peers =
      mapUpdate r.peers t (fun x => { x with isMasterClient := true }) := by
  unfold setMasterClientInternal broadcastEvent
  rw [hm]
  try dsimp only
  rw [if_pos ht]

theorem setMasterInternal_peers_cleared (r : RoomSt) (t q : Nat)
    (hm : r.masterClientId = some q) (h1 : q ≠ 0 ∧ mapHas r.peers q = true)
    (ht : mapHas r.peers t = true) :
    (setMasterClientInternal r t).1.peers =
      mapUpdate (mapUpdate r.peers q (fun x => { x with isMasterClient := false }))
        t (fun x => { x with isMasterClient := true }) := by
  unfold setMasterClientInternal broadcastEvent
  rw [hm]
  try dsimp only
  rw [if_pos h1]
  try dsimp only
  rw [if_pos (by rw [mapUpdate_has]; exact ht)]

theorem setMasterInternal_peers_skip (r : RoomSt) (t q : Nat)
    (hm : r.masterClientId = some q) (h1 : ¬ (q ≠ 0 ∧ mapHas r.peers q = true))
    (ht : mapHas r.peers t = true) :
    (setMasterClientInternal r t).1.peers =
      mapUpdate r.peers t (fun x => { x with isMasterClient := true }) := by
  unfold setMasterClientInternal broadcastEvent
  rw [hm]
  try dsimp only
  rw [if_neg h1]
  try dsimp only
  rw [if_pos ht]

theorem setMasterInternal_inv (r : RoomSt) (t : Nat)
    (hpos : ∀ e ∈ r.peers, 1 ≤ e.1) (hnodup : (r.peers.map Prod.fst).Nodup)
    (hflags : match r.masterClientId with
      | none => ∀ e ∈ r.peers, e.2.isMasterClient = false
      | some q => ∀ e ∈ r.peers, (e.2.isMasterClient = true ↔ e.1 = q))
    (ht : mapHas r.peers t = true) :
    masterInv (setMasterClientInternal r t).1 := by
  cases hm : r.masterClientId with
  | none =>
      rw [hm] at hflags
      have hpe := setMasterInternal_peers_none r t hm ht
      refine masterInv_build _ t (setMasterInternal_master r t) ?_ ?_ ?_ ?_ <;> rw [hpe]
      · exact (mapUpdate_inv_base r.peers t _ hpos hnodup).1
      · exact (mapUpdate_inv_base r.peers t _ hpos hnodup).2
      · rw [mapUpdate_has]; exact ht
      · exact set_flag_pointwise r.peers t hflags
  | some q =>
      rw [hm] at hflags
      by_cases h1 : q ≠ 0 ∧ mapHas r.peers q = true
      · have hpe := setMasterInternal_peers_cleared r t q hm h1 ht
        have hbase := mapUpdate_inv_base r.peers q
          (fun x => { x with isMasterClient := false }) hpos hnodup
        refine masterInv_build _ t (setMasterInternal_master r t) ?_ ?_ ?_ ?_ <;> rw [hpe]
        · exact (mapUpdate_inv_base _ t _ hbase.1 hbase.2).1
        · exact (mapUpdate_inv_base _ t _ hbase.1 hbase.2).2
        · rw [mapUpdate_has, mapUpdate_has]; exact ht
        · exact set_flag_pointwise _ t (clear_flag_all_false r.peers q hflags)
      · have hall : ∀ e ∈ r.peers, e.2.isMasterClient = false := by
          intro e he
          cases hb : e.2.isMasterClient
          · rfl
          · exfalso
            have hq : e.1 = q := (hflags e he).mp hb
            refine h1 ⟨?_, ?_⟩
            · have := hpos e he; omega
            · rw [show q = e.1 from hq.symm]; exact mapHas_of_mem he
        have hpe := setMasterInternal_peers_skip r t q hm h1 ht
        refine masterInv_build _ t (setMasterInternal_master r t) ?_ ?_ ?_ ?_ <;> rw [hpe]
        · exact (mapUpdate_inv_base r.peers t _ hpos hnodup).1
        · exact (mapUpdate_inv_base r.peers t _ hpos hnodup).2
        · rw [mapUpdate_has]; exact ht
        · exact set_flag_pointwise r.peers t hall

theorem mapHas_of_key_mem {κ α : Type} [DecidableEq κ] {m : List (κ × α)} {k : κ}
    (h : k ∈ m.map Prod.fst) : mapHas m k = true := by
  rcases List.mem_map.mp h with ⟨e, he, hk⟩
  rw [← hk]
  exact mapHas_of_mem he

theorem masterInv_ext (r r' : RoomSt) (hp : r'.peers = r.peers)
    (hm : r'.masterClientId = r.masterClientId) (h : masterInv r) : masterInv r' := by
  obtain ⟨h1, h2, h3⟩ := h
  unfold masterInv
  rw [hp, hm]
  exact ⟨h1, h2, h3⟩

theorem hflags_of_hmatch (r : RoomSt)
    (hmatch : match r.masterClientId with
      | none => ∀ e ∈ r.peers, e.2.isMasterClient = false
      | some m => mapHas r.peers m = true ∧
          ∀ e ∈ r.peers, (e.2.isMasterClient = true ↔ e.1 = m)) :
    (match r.masterClientId with
      | none => ∀ e ∈ r.peers, e.2.isMasterClient = false
      | some q => ∀ e ∈ r.peers, (e.2.isMasterClient = true ↔ e.1 = q)) := by
  cases hm : r.masterClientId
  · rw [hm] at hmatch; exact hmatch
  · rw [hm] at hmatch; exact hmatch.2

theorem setMasterClient_inv (r : RoomSt) (t : Nat) (hInv : masterInv r) :
    masterInv (setMasterClient r t).1 := by
  obtain ⟨hpos, hnodup, hmatch⟩ := hInv
  unfold setMasterClient
  by_cases h : mapHas r.peers t = true
  · rw [if_pos h]
    rcases hsm : setMasterClientInternal r t with ⟨r1, msgs⟩
    have hres := setMasterInternal_inv r t hpos hnodup (hflags_of_hmatch r hmatch) h
    rw [hsm] at hres
    exact hres
  · rw [if_neg h]
    exact ⟨hpos, hnodup, hmatch⟩

theorem selectNewMaster_inv (A : RoomSt) (hlen : ¬ A.peers.length = 0)
    (hpos : ∀ e ∈ A.peers, 1 ≤ e.1) (hnodup : (A.peers.map Prod.fst).Nodup)
    (hflags : match A.masterClientId with
      | none => ∀ e ∈ A.peers, e.2.isMasterClient = false
      | some q => ∀ e ∈ A.peers, (e.2.isMasterClient = true ↔ e.1 = q)) :
    masterInv (selectNewMasterClient A).1 := by
  unfold selectNewMasterClient
  rw [if_neg hlen]
  cases hsort : (A.peers.map Prod.fst).mergeSort (· ≤ ·) with
  | nil =>
      exfalso
      have hp := List.mergeSort_perm (A.peers.map Prod.fst) (· ≤ ·)
      rw [hsort] at hp
      have := hp.length_eq
      simp at this
      exact hlen this.symm
  | cons m rest =>
      obtain ⟨hmem, _⟩ := head_mergeSort_min _ _ _ hsort
      exact setMasterInternal_inv A m hpos hnodup hflags (mapHas_of_key_mem hmem)

theorem afterDelete_peers (r : RoomSt) (pid now : Nat) :
    (afterDelete r pid now).peers = mapDelete r.peers pid := rfl

theorem afterDelete_master (r : RoomSt) (pid now : Nat) :
    (afterDelete r pid now).masterClientId = r.masterClientId := rfl

theorem removePeer_inv (r : RoomSt) (pid now : Nat) (hInv : masterInv r) :
    masterInv (removePeer r pid now).1 := by
  obtain ⟨hpos, hnodup, hmatch⟩ := hInv
  have hposD : ∀ e ∈ mapDelete r.peers pid, 1 ≤ e.1 :=
    fun e he => hpos e (mapDelete_mem.mp he).1
  have hnodupD : ((mapDelete r.peers pid).map Prod.fst).Nodup :=
    (mapDelete_keys_sublist r.peers pid).nodup hnodup
  cases hg : mapGet r.peers pid with
  | none =>
      rw [removePeer_none_eq r pid now hg]
      exact ⟨hpos, hnodup, hmatch⟩
  | some p =>
      by_cases hm : r.masterClientId = some pid
      · obtain ⟨hpe, hmc, _⟩ := removePeer_master_proj r pid now p hg hm
        have hflagsA : ∀ e ∈ mapDelete r.peers pid,
            (e.2.isMasterClient = true ↔ e.1 = pid) := by
          intro e he
          rw [hm] at hmatch
          exact hmatch.2 e (mapDelete_mem.mp he).1
        have hinvSel : masterInv (selectNewMasterClient (afterDelete r pid now)).1 := by
          by_cases hlen : (mapDelete r.peers pid).length = 0
          · have hnil : mapDelete r.peers pid = [] := List.length_eq_zero.mp hlen
            have hsel : selectNewMasterClient (afterDelete r pid now) =
                ({ afterDelete r pid now with masterClientId := none }, []) := by
              unfold selectNewMasterClient
              rw [if_pos (by rw [afterDelete_peers, hlen])]
            rw [hsel]
            refine masterInv_build_none _ rfl ?_ ?_ ?_ <;>
              simp only [afterDelete_peers, hnil]
            · intro e he; cases he
            · simp
            · intro e he; cases he
          · apply selectNewMaster_inv _ (by rw [afterDelete_peers]; exact hlen)
            · rw [afterDelete_peers]; exact hposD
            · rw [afterDelete_peers]; exact hnodupD
            · rw [afterDelete_master, hm, afterDelete_peers]
              exact hflagsA
        exact masterInv_ext _ _ hpe hmc hinvSel
      · obtain ⟨hpe, hmc⟩ := removePeer_notmaster_proj r pid now p hg hm
        unfold masterInv
        rw [hpe, hmc]
        refine ⟨hposD, hnodupD, ?_⟩
        cases hmm : r.masterClientId with
        | none =>
            rw [hmm] at hmatch
            exact fun e he => hmatch e (mapDelete_mem.mp he).1
        | some q =>
            rw [hmm] at hmatch
            have hq : ¬ q = pid := fun hqe => hm (by rw [hmm, hqe])
            refine ⟨?_, fun e he => hmatch.2 e (mapDelete_mem.mp he).1⟩
            rcases (mapHas_iff _ _).mp hmatch.1 with ⟨e, he, hk⟩
            exact (mapHas_iff _ _).mpr ⟨e, mapDelete_mem.mpr ⟨he, by rw [hk]; exact hq⟩, hk⟩

theorem filter_master_len (l : List (Nat × PeerSt)) (m : Nat)
    (hnodup : (l.map Prod.fst).Nodup) (hm : mapHas l m = true)
    (hflag : ∀ e ∈ l, (e.2.isMasterClient = true ↔ e.1 = m)) :
    (l.filter fun e => e.2.isMasterClient).length = 1 := by
  induction l with
  | nil => simp [mapHas] at hm
  | cons a tl ih =>
      simp only [List.map_cons, List.nodup_cons] at hnodup
      by_cases ha : a.2.isMasterClient = true
      · have ham : a.1 = m := (hflag a (List.mem_cons_self a tl)).mp ha
        have htl : ∀ e ∈ tl, ¬ e.2.isMasterClient = true := by
          intro e he hb
          have he1 : e.1 = m := (hflag e (List.mem_cons_of_mem a he)).mp hb
          exact hnodup.1 (by rw [ham, ← he1]; exact List.mem_map_of_mem Prod.fst he)
        have hfc : (a :: tl).filter (fun e => e.2.isMasterClient) =
            a :: tl.filter (fun e => e.2.isMasterClient) :=
          List.filter_cons_of_pos ha
        rw [hfc]
        have hnil : tl.filter (fun e => e.2.isMasterClient) = [] :=
          List.filter_eq_nil_iff.mpr fun e he => by simpa using htl e he
        simp [hnil]
      · have hm' : mapHas tl m = true := by
          simp only [mapHas, List.any_cons, Bool.or_eq_true, decide_eq_true_eq] at hm
          rcases hm with h | h
          · exact absurd ((hflag a (List.mem_cons_self a tl)).mpr h) ha
          · simpa [mapHas] using h
        have hfc : (a :: tl).filter (fun e => e.2.isMasterClient) =
            tl.filter (fun e => e.2.isMasterClient) :=
          List.filter_cons_of_neg (by simpa using ha)
        rw [hfc]
        exact ih hnodup.2 hm' (fun e he => hflag e (List.mem_cons_of_mem a he))

theorem setRoom_some_peerId (p : PeerSt) (name : String) (now : Nat) :
    (p.setRoom (some name) now).peerId = p.peerId := rfl

theorem setRoom_some_flag (p : PeerSt) (name : String) (now : Nat) :
    (p.setRoom (some name) now).isMasterClient = p.isMasterClient := rfl

theorem not_has_not_key_mem {κ α : Type} [DecidableEq κ] {m : List (κ × α)} {k : κ}
    (h : mapHas m k = false) : k ∉ m.map Prod.fst := by
  intro hmem
  rw [mapHas_of_key_mem hmem] at h
  exact absurd h (by simp)

theorem validatePeerPassword_fields (r : RoomSt) (p : PeerSt) :
    (validatePeerPassword r p).1.peerId = p.peerId ∧
    (validatePeerPassword r p).1.isMasterClient = p.isMasterClient := by
  unfold validatePeerPassword PeerSt.validatePassword
  cases r.password <;> dsimp only
  · exact ⟨rfl, rfl⟩
  · split_ifs <;> exact ⟨rfl, rfl⟩

theorem validate_ok_facts (r : RoomSt) (p p1 : PeerSt)
    (hv : validatePeerForJoin r p = (p1, none)) :
    p1.peerId = p.peerId ∧ p1.isMasterClient = p.isMasterClient ∧
    mapHas r.peers p.peerId = false := by
  unfold validatePeerForJoin at hv
  rcases hw : validatePeerPassword r p with ⟨pw1, ok⟩
  rw [hw] at hv
  have hf := validatePeerPassword_fields r p
  rw [hw] at hf
  cases ok
  · split_ifs at hv <;> simp at hv
  · split_ifs at hv with h1 h2 h3 h4 <;> simp at hv
    rw [← hv]
    exact ⟨hf.1, hf.2, by simpa using h3⟩

theorem addPeerSuccess_proj (r : RoomSt) (p : PeerSt) (now : Nat) :
    ((addPeerSuccess r p now).1.peers,
     (addPeerSuccess r p now).1.masterClientId) =
      (if (mapSet r.peers p.peerId (p.setRoom (some r.name) now)).length = 1
       then ((setMasterClientInternal
              { r with peers := mapSet r.peers p.peerId (p.setRoom (some r.name) now) }
              p.peerId).1.peers,
             (setMasterClientInternal
              { r with peers := mapSet r.peers p.peerId (p.setRoom (some r.name) now) }
              p.peerId).1.masterClientId)
       else (mapSet r.peers p.peerId (p.setRoom (some r.name) now), r.masterClientId)) := by
  unfold addPeerSuccess broadcastEvent
  dsimp only [setRoom_some_peerId]
  split_ifs with h
  · rcases hsm : setMasterClientInternal
        { r with peers := mapSet r.peers p.peerId (p.setRoom (some r.name) now) }
        p.peerId with ⟨r2, sm⟩
    rfl
  · rfl

theorem masterInv_parts (X : RoomSt)
    (hp : ∀ e ∈ X.peers, 1 ≤ e.1) (hn : (X.peers.map Prod.fst).Nodup)
    (hm : match X.masterClientId with
      | none => ∀ e ∈ X.peers, e.2.isMasterClient = false
      | some m => mapHas X.peers m = true ∧
          ∀ e ∈ X.peers, (e.2.isMasterClient = true ↔ e.1 = m)) :
    masterInv X := ⟨hp, hn, hm⟩

theorem addPeer_inv (r : RoomSt) (p : PeerSt) (now : Nat) (hInv : masterInv r)
    (hflag : p.isMasterClient = false) (hpid : 1 ≤ p.peerId) :
    masterInv (addPeer r p now).1 := by
  obtain ⟨hpos, hnodup, hmatch⟩ := hInv
  unfold addPeer
  rcases hv : validatePeerForJoin r p with ⟨p1, err⟩
  cases err with
  | some e => exact ⟨hpos, hnodup, hmatch⟩
  | none =>
      obtain ⟨hpeq, hfeq, hhas⟩ := validate_ok_facts r p p1 hv
      have hhas1 : mapHas r.peers p1.peerId = false := by rw [hpeq]; exact hhas
      have hset : mapSet r.peers p1.peerId (p1.setRoom (some r.name) now) =
          r.peers ++ [(p1.peerId, p1.setRoom (some r.name) now)] :=
        mapSet_not_has _ _ _ hhas1
      have hproj := addPeerSuccess_proj r p1 now
      have hppos : ∀ e ∈ r.peers ++ [(p1.peerId, p1.setRoom (some r.name) now)],
          1 ≤ e.1 := by
        intro e he
        rcases List.mem_append.mp he with h | h
        · exact hpos e h
        · have he1 : e.1 = p1.peerId := by rw [List.mem_singleton.mp h]
          rw [he1, hpeq]; exact hpid
      have hpnodup : ((r.peers ++ [(p1.peerId, p1.setRoom (some r.name) now)]).map
          Prod.fst).Nodup := by
        rw [List.map_append]
        refine List.Nodup.append hnodup (by simp) ?_
        intro a ha hb
        simp only [List.map_cons, List.map_nil, List.mem_singleton] at hb
        exact not_has_not_key_mem hhas1 (hb ▸ ha)
      have hflag1 : (p1.setRoom (some r.name) now).isMasterClient = false := by
        rw [setRoom_some_flag, hfeq]; exact hflag
      by_cases hlen : (mapSet r.peers p1.peerId (p1.setRoom (some r.name) now)).length = 1
      · rw [if_pos hlen] at hproj
        have hnil : r.peers = [] := by
          rw [hset] at hlen
          rcases hrp : r.peers with _ | ⟨a, tl⟩
          · rfl
          · rw [hrp] at hlen
            simp [List.length_append] at hlen
        have hmain : masterInv (setMasterClientInternal
            { r with peers := mapSet r.peers p1.peerId (p1.setRoom (some r.name) now) }
            p1.peerId).1 := by
          apply setMasterInternal_inv
          · intro e he
            exact hppos e (by rw [← hset]; exact he)
          · show ((mapSet r.peers p1.peerId (p1.setRoom (some r.name) now)).map
              Prod.fst).Nodup
            rw [hset]; exact hpnodup
          · show (match r.masterClientId with
              | none => ∀ e ∈ mapSet r.peers p1.peerId (p1.setRoom (some r.name) now),
                  e.2.isMasterClient = false
              | some q => ∀ e ∈ mapSet r.peers p1.peerId (p1.setRoom (some r.name) now),
                  (e.2.isMasterClient = true ↔ e.1 = q))
            cases hmm : r.masterClientId with
            | none =>
                intro e he
                rw [hset, hnil] at he
                simp only [List.nil_append, List.mem_singleton] at he
                rw [he]
                exact hflag1
            | some q =>
                exfalso
                rw [hmm] at hmatch
                rw [hnil] at hmatch
                simp [mapHas] at hmatch
          · show mapHas (mapSet r.peers p1.peerId (p1.setRoom (some r.name) now))
              p1.peerId = true
            rw [hset]
            exact mapHas_of_key_mem (by simp)
        exact masterInv_ext _ _ (congrArg Prod.fst hproj) (congrArg Prod.snd hproj) hmain
      · rw [if_neg hlen] at hproj
        have h1 : (addPeerSuccess r p1 now).1.peers =
            r.peers ++ [(p1.peerId, p1.setRoom (some r.name) now)] := by
          have h0 := congrArg Prod.fst hproj
          rw [hset] at h0
          exact h0
        have h2 : (addPeerSuccess r p1 now).1.masterClientId = r.masterClientId :=
          congrArg Prod.snd hproj
        have hfinal : masterInv (addPeerSuccess r p1 now).1 := by
          apply masterInv_parts
          · rw [h1]; exact hppos
          · rw [h1]; exact hpnodup
          · rw [h1, h2]
            cases hmm : r.masterClientId with
            | none =>
                rw [hmm] at hmatch
                intro e he
                rcases List.mem_append.mp he with hh | hh
                · exact hmatch e hh
                · rw [List.mem_singleton.mp hh]
                  exact hflag1
            | some q =>
                rw [hmm] at hmatch
                constructor
                · rcases (mapHas_iff _ _).mp hmatch.1 with ⟨e0, he0, hk⟩
                  exact (mapHas_iff _ _).mpr ⟨e0, List.mem_append_left _ he0, hk⟩
                · intro e he
                  rcases List.mem_append.mp he with hh | hh
                  · exact hmatch.2 e hh
                  · rw [List.mem_singleton.mp hh]
                    constructor
                    · intro hb
                      rw [hflag1] at hb
                      exact absurd hb (by simp)
                    · intro hqe
                      exfalso
                      apply not_has_not_key_mem hhas1
                      rw [show p1.peerId = q from hqe]
                      rcases (mapHas_iff _ _).mp hmatch.1 with ⟨e0, he0, hk⟩
                      rw [← hk]
                      exact List.mem_map_of_mem Prod.fst he0
        exact hfinal

/-- C4: when the master client is removed from a room that still has
members, `_selectNewMasterClient` makes the remaining member with the
smallest peer id the new master, and every master change
(`_setMasterClient`) broadcasts a `MasterClientSwitched` event carrying the
new master id to every connected member of the room. -/
theorem photon_master_reelection_min_id_and_broadcast :
    (∀ r pid now, r.masterClientId = some pid → mapHas r.peers pid = true →
      ¬ (mapDelete r.peers pid).length = 0 →
      ∃ m, (removePeer r pid now).1.masterClientId = some m ∧
        m ∈ (mapDelete r.peers pid).map Prod.fst ∧
        (∀ x ∈ (mapDelete r.peers pid).map Prod.fst, m ≤ x) ∧
        ∀ e ∈ (removePeer r pid now).1.peers, e.2.isConnected = true →
          Msg.evt e.2.peerId EV_MASTER_CLIENT_SWITCHED (.masterSwitched m) ∈
            (removePeer r pid now).2.2.1) ∧
    (∀ r t, ∀ e ∈ (setMasterClientInternal r t).1.peers, e.2.isConnected = true →
      Msg.evt e.2.peerId EV_MASTER_CLIENT_SWITCHED (.masterSwitched t) ∈
        (setMasterClientInternal r t).2) := by
  constructor
  · intro r pid now hm hhas hlen
    obtain ⟨p, hg⟩ := mapGet_of_has r.peers pid hhas
    obtain ⟨hpe, hmc, hsub⟩ := removePeer_master_proj r pid now p hg hm
    obtain ⟨m, hsm, hmm, hmin, hkeys, hevts⟩ := selectNewMaster_spec
      (afterDelete r pid now) (by rw [afterDelete_peers]; exact hlen)
    refine ⟨m, by rw [hmc]; exact hsm, hmm, hmin, ?_⟩
    intro e he hc
    apply hsub
    exact hevts e (by rw [hpe] at he; exact he) hc
  · intro r t e he hc
    rw [setMasterInternal_msgs]
    exact broadcastSends_reaches _ _ none _ e he rfl hc

/-- C4 witness: removing master 1 from the three-member fixture room
elects the smallest remaining id and notifies the connected members. -/
theorem photon_master_reelection_min_id_and_broadcast_witness :
    (twoPeerRoom.masterClientId = some 1 ∧ mapHas twoPeerRoom.peers 1 = true ∧
      ¬ (mapDelete twoPeerRoom.peers 1).length = 0) ∧
    (∃ m, (removePeer twoPeerRoom 1 5).1.masterClientId = some m ∧
      m ∈ (mapDelete twoPeerRoom.peers 1).map Prod.fst ∧
      (∀ x ∈ (mapDelete twoPeerRoom.peers 1).map Prod.fst, m ≤ x) ∧
      ∀ e ∈ (removePeer twoPeerRoom 1 5).1.peers, e.2.isConnected = true →
        Msg.evt e.2.peerId EV_MASTER_CLIENT_SWITCHED (.masterSwitched m) ∈
          (removePeer twoPeerRoom 1 5).2.2.1) :=
  ⟨⟨rfl, rfl, by decide⟩,
   photon_master_reelection_min_id_and_broadcast.1 twoPeerRoom 1 5 rfl rfl (by decide)⟩

/-- C5 (amended): `masterInv` — a set master id is a current member and
the membership flags point at exactly it — implies the claimed
"exactly one member has is-master = true", and it is preserved by
`removePeer`, by `setMasterClient`, and by `addPeer` *provided the incoming
peer's flag is clear and its id positive*.  The unamended claim fails:
`addPeer` accepts a peer whose flag is still set from another room and
stores it flagged (see the counterexample), so a cross-room join reaches a
state with two flagged members. -/
theorem photon_master_invariant_preservation :
    (∀ r m, masterInv r → r.masterClientId = some m →
      mapHas r.peers m = true ∧
      (r.peers.filter fun e => e.2.isMasterClient).length = 1) ∧
    (∀ r p now, masterInv r → p.isMasterClient = false → 1 ≤ p.peerId →
      masterInv (addPeer r p now).1) ∧
    (∀ r pid now, masterInv r → masterInv (removePeer r pid now).1) ∧
    (∀ r t, masterInv r → masterInv (setMasterClient r t).1) := by
  refine ⟨?_, addPeer_inv, removePeer_inv, setMasterClient_inv⟩
  intro r m hInv hm
  obtain ⟨hpos, hnodup, hmatch⟩ := hInv
  rw [hm] at hmatch
  exact ⟨hmatch.1, filter_master_len r.peers m hnodup hmatch.1 hmatch.2⟩

/-- C5 counterexample: a peer still flagged master of room "a" joins room
"b" (the join succeeds — nothing validates the flag), after which room "b"
has *two* members with is-master = true while its master id still points at
member 1. -/
theorem photon_master_invariant_counterexample :
    masterInv oneMasterRoom ∧
    (addPeer oneMasterRoom roguePeer 5).2.2.2 = true ∧
    ((addPeer oneMasterRoom roguePeer 5).1.peers.filter
      fun e => e.2.isMasterClient).length = 2 ∧
    (addPeer oneMasterRoom roguePeer 5).1.masterClientId = some 1 :=
  ⟨⟨by decide, by decide, by decide, by decide⟩, rfl, rfl, rfl⟩

/-- C5 witness: the preservation theorem applied to the concrete
one-master room for each of the three operations, plus the
exactly-one-flagged consequence. -/
theorem photon_master_invariant_preservation_witness :
    masterInv oneMasterRoom ∧
    (mapHas oneMasterRoom.peers 1 = true ∧
      (oneMasterRoom.peers.filter fun e => e.2.isMasterClient).length = 1) ∧
    masterInv (addPeer oneMasterRoom (freshPeer 2) 5).1 ∧
    masterInv (removePeer oneMasterRoom 1 5).1 ∧
    masterInv (setMasterClient oneMasterRoom 1).1 := by
  have hInv : masterInv oneMasterRoom := ⟨by decide, by decide, by decide, by decide⟩
  exact ⟨hInv,
    photon_master_invariant_preservation.1 oneMasterRoom 1 hInv rfl,
    photon_master_invariant_preservation.2.1 oneMasterRoom (freshPeer 2) 5 hInv rfl
      (by decide),
    photon_master_invariant_preservation.2.2.1 oneMasterRoom 1 5 hInv,
    photon_master_invariant_preservation.2.2.2 oneMasterRoom 1 hInv⟩

/-- C2 counterexample: a successful Authenticate through the enterprise
handler produces *two* op-230 responses to the requesting peer, not one —
`peer.authenticate` sends a response itself and `_handleAuthentication`
then sends its own. -/
theorem photon_double_response_counterexample :
    respCount (handleAuthenticationPro (freshPeer 1) "alice" "u1").2 1 OP_AUTHENTICATE = 2 ∧
    (2 : Nat) ≠ 1 := ⟨rfl, by decide⟩

/-- C2 (amended): a successful Authenticate through the enterprise handler
always yields exactly two op-230 operation responses to the requesting
peer (`peer.authenticate` answers, then `_handleAuthentication` answers
again), and a successful enterprise JoinRoom likewise yields two op-226
responses (the join response sent inside `addPeer` plus the handler-level
response), shown on a concrete successful join. -/
theorem photon_operation_response_multiplicity :
    (∀ p : PeerSt, ∀ nickname userId : String, ¬ userId = "" → ¬ nickname = "" →
      nickname.length ≤ 50 → userId.length ≤ 100 → p.canSendCommand = true →
      respCount (handleAuthenticationPro p nickname userId).2 p.peerId OP_AUTHENTICATE = 2) ∧
    respCount (handleJoinRoomPro [("b", roomFixture "b" none)] 1
      { freshPeer 7 with isAuthenticated := true } (some "b") none {} 300000 5).2.2.2
      7 OP_JOIN_ROOM = 2 := by
  refine ⟨?_, rfl⟩
  intro p nickname userId huid hnick hnlen hulen hsend
  have hsd : p.socketDestroyed = false ∧ p.isActive = true := by
    unfold PeerSt.canSendCommand at hsend
    simp only [Bool.and_eq_true, Bool.not_eq_true'] at hsend
    exact ⟨hsend.1.1, hsend.1.2⟩
  unfold handleAuthenticationPro peerAuthenticate PeerSt.sendOperationResponse
  rw [if_neg huid]
  rw [if_neg (show ¬ (nickname = "" ∨ nickname.length > 50 ∨ userId.length > 100) from
    not_or.mpr ⟨hnick, not_or.mpr ⟨by omega, by omega⟩⟩)]
  have hsend1 : ({ p with
      playerName := nickname
      userId := (if userId = "" then toString p.peerId else userId)
      isAuthenticated := true
      status := .connected } : PeerSt).canSendCommand = true := by
    unfold PeerSt.canSendCommand
    simp [hsd.1, hsd.2]
  dsimp only
  rw [if_pos hsend1, if_pos hsend1]
  simp [respCount]

/-- C2 witness: the multiplicity theorem applied to a fresh peer with
nickname "bob" and user id "u2". -/
theorem photon_operation_response_multiplicity_witness :
    (¬ ("u2" : String) = "" ∧ ¬ ("bob" : String) = "" ∧
      ("bob" : String).length ≤ 50 ∧ ("u2" : String).length ≤ 100 ∧
      (freshPeer 2).canSendCommand = true) ∧
    respCount (handleAuthenticationPro (freshPeer 2) "bob" "u2").2
      (freshPeer 2).peerId OP_AUTHENTICATE = 2 :=
  ⟨⟨by decide, by decide, by decide, by decide, rfl⟩,
   photon_operation_response_multiplicity.1 (freshPeer 2) "bob" "u2"
     (by decide) (by decide) (by decide) (by decide) rfl⟩

/-- C3: for the room `p1` created with password "secret" (first conjunct
ties the fixture to the constructor), a join with the wrong password is
answered `JoinFailedDenied` as specified — but a join with the *correct*
password is answered `ROOM_FULL` and the peer does not become a member:
`_validatePeerPassword` consults only the peer's `hasValidPassword` flag
(initially `false`, never set before a join), never the supplied password,
so the correct-password join throws "Invalid room password" inside
`addPeer` and the handler maps the failure of this open room to
`ROOM_FULL`. -/
theorem photon_password_join_code_bug :
    mkPhotonRoom "p1" { password := some "secret" } 0 =
      .ok (roomFixture "p1" (some "secret")) ∧
    (handleJoinRoomSimple [("p1", roomFixture "p1" (some "secret"))] 1 (freshPeer 7)
      (some "p1") (some "wrong") {} 5).2.2.2 =
      [.opResp 7 OP_JOIN_ROOM RET_JOIN_FAILED_DENIED .misc] ∧
    (handleJoinRoomSimple [("p1", roomFixture "p1" (some "secret"))] 1 (freshPeer 7)
      (some "p1") (some "wrong") {} 5).1 = [("p1", roomFixture "p1" (some "secret"))] ∧
    (handleJoinRoomSimple [("p1", roomFixture "p1" (some "secret"))] 1 (freshPeer 7)
      (some "p1") (some "secret") {} 5).2.2.2 =
      [.opResp 7 OP_JOIN_ROOM RET_ROOM_FULL .misc] ∧
    (handleJoinRoomSimple [("p1", roomFixture "p1" (some "secret"))] 1 (freshPeer 7)
      (some "p1") (some "secret") {} 5).1 = [("p1", roomFixture "p1" (some "secret"))] :=
  ⟨rfl, rfl, rfl, rfl, rfl⟩

/-- C7: `shouldCleanup` implements exactly the specified eligibility
condition (empty ∧ autoCleanup ∧ emptyRoomTtl > 0 ∧ idle longer than the
TTL), and the enterprise cleanup tick destroys an eligible room — but the
plain server's cleanup tick never destroys any room: its eligibility test
reads `room.emptyRoomTtl` and `room.lastActivity`, properties `PhotonRoom`
does not expose (the values live in the private `_config`/`_state`), so
the test is always false, as the concrete eligible room shows. -/
theorem photon_cleanup_tick_divergence :
    (∀ r : RoomSt, ∀ now : Nat, r.shouldCleanup now = true ↔
      (r.peers.length = 0 ∧ r.autoCleanup = true ∧ 0 < r.emptyRoomTtl ∧
        r.emptyRoomTtl < now - r.lastActivity)) ∧
    (∀ r : RoomSt, ∀ now : Nat, simpleCleanupEligible r now = false) ∧
    (roomFixture "b" none).shouldCleanup 300001 = true ∧
    simpleCleanupTick [("b", roomFixture "b" none)] 300001 =
      [("b", roomFixture "b" none)] ∧
    proCleanupTick [("b", roomFixture "b" none)] 300001 = [] := by
  refine ⟨?_, ?_, rfl, rfl, rfl⟩
  · intro r now
    unfold RoomSt.shouldCleanup RoomSt.isEmpty
    split_ifs with h1 h2
    · simp only [Bool.false_eq_true, false_iff]
      rintro ⟨ha, hb, -, -⟩
      simp [ha, hb] at h1
    · simp only [Bool.false_eq_true, false_iff]
      rintro ⟨-, -, hc, -⟩
      omega
    · have h0 : (!r.autoCleanup || !decide (r.peers.length = 0)) = false := by
        cases hx : (!r.autoCleanup || !decide (r.peers.length = 0))
        · rfl
        · exact absurd hx h1
      simp only [Bool.or_eq_false_iff, Bool.not_eq_false', Bool.not_eq_true] at h0
      have hauto : r.autoCleanup = true := by
        cases hab : r.autoCleanup
        · rw [hab] at h0; exact absurd h0.1 (by simp)
        · rfl
      have hlen : r.peers.length = 0 := by
        have := h0.2
        simpa using this
      simp only [decide_eq_true_eq, gt_iff_lt]
      constructor
      · intro hgt
        exact ⟨hlen, hauto, by omega, hgt⟩
      · intro h
        exact h.2.2.2
  · intro r now
    simp [simpleCleanupEligible, roomEmptyRoomTtlProp]

/-- C8 counterexample: the plain server's `createRoom` on an already-taken
name does not fail — it returns `ok` with the existing room and the
registry unchanged, silently ignoring the new options. -/
theorem photon_registry_counterexample :
    createRoomSimple [("p1", roomFixture "p1" none)] 1 "p1" { maxPlayers := some 99 } 0 =
      .ok ([("p1", roomFixture "p1" none)], 1, roomFixture "p1" none) := rfl

/-- C8 (amended): the *enterprise* `createRoom` throws "Room already
exists" for a taken name; the *plain* `createRoom` instead returns the
existing room with the registry unchanged (so nothing is created or
replaced, but it does not fail); and `removeRoom` — identical in both
servers — refuses to remove a room with members, returning `false` with
the registry untouched. -/
theorem photon_registry_create_remove :
    (∀ rooms : Rooms, ∀ trc : Nat, ∀ name : String, ∀ options : RoomOptions,
      ∀ cfg : Int, ∀ now : Nat, ¬ name = "" → mapHas rooms name = true →
      createRoomPro rooms trc name options cfg now = .error "Room already exists") ∧
    (∀ rooms : Rooms, ∀ trc : Nat, ∀ name : String, ∀ options : RoomOptions,
      ∀ now : Nat, ∀ r : RoomSt, mapGet rooms name = some r →
      createRoomSimple rooms trc name options now = .ok (rooms, trc, r)) ∧
    (∀ rooms : Rooms, ∀ name : String, ∀ r : RoomSt, mapGet rooms name = some r →
      r.isEmpty = false → removeRoom rooms name = (rooms, false)) := by
  refine ⟨?_, ?_, ?_⟩
  · intro rooms trc name options cfg now hname hhas
    unfold createRoomPro
    rw [if_neg hname, if_pos hhas]
    rfl
  · intro rooms trc name options now r h
    unfold createRoomSimple
    rw [h]
  · intro rooms name r h hne
    unfold removeRoom
    rw [h]
    dsimp only
    rw [if_pos (show (!r.isEmpty) = true by rw [hne]; rfl)]

/-- C8 witness: the registry theorem applied to a one-room registry and to
a registry holding a non-empty room. -/
theorem photon_registry_create_remove_witness :
    (¬ "p1" = "" ∧ mapHas [("p1", roomFixture "p1" none)] "p1" = true ∧
      createRoomPro [("p1", roomFixture "p1" none)] 1 "p1" {} 300000 0 =
        .error "Room already exists") ∧
    (mapGet [("p1", roomFixture "p1" none)] "p1" = some (roomFixture "p1" none) ∧
      createRoomSimple [("p1", roomFixture "p1" none)] 1 "p1" {} 0 =
        .ok ([("p1", roomFixture "p1" none)], 1, roomFixture "p1" none)) ∧
    (oneMasterRoom.isEmpty = false ∧
      removeRoom [("b", oneMasterRoom)] "b" = ([("b", oneMasterRoom)], false)) :=
  ⟨⟨by decide, rfl,
    photon_registry_create_remove.1 [("p1", roomFixture "p1" none)] 1 "p1" {} 300000 0
      (by decide) rfl⟩,
   ⟨rfl, photon_registry_create_remove.2.1 [("p1", roomFixture "p1" none)] 1 "p1" {} 0
      (roomFixture "p1" none) rfl⟩,
   ⟨rfl, photon_registry_create_remove.2.2 [("b", oneMasterRoom)] "b" oneMasterRoom
      rfl rfl⟩⟩

/-- C9 (amended): when a structurally valid packet's command bytes fail to
decode, the peer is not disconnected and the rest of the packet is
skipped — the server state is exactly the pre-parse activity bookkeeping
(`_updatePeerActivity`): rooms unchanged, peer set unchanged, message and
byte counters bumped — and, contrary to the claim, `totalErrors` is *not*
incremented: `_parseCommands` catches the decode error and returns `null`,
so the `catch` in `_handleSocketData` that counts errors never runs. -/
theorem photon_decode_error_swallowed (processCmd : ServerSt → Nat → Cmd → ServerSt)
    (st : ServerSt) (pid : Nat) (buffer raw : List Nat) (now : Nat)
    (hval : validatePacketStructure buffer = true)
    (hlen : ¬ buffer.length - 12 = 0)
    (hparse : parseAllCommands raw = none) :
    processIncomingData processCmd st pid buffer raw now =
      updatePeerActivity st pid buffer.length now ∧
    (processIncomingData processCmd st pid buffer raw now).totalErrors = st.totalErrors ∧
    (processIncomingData processCmd st pid buffer raw now).rooms = st.rooms ∧
    (processIncomingData processCmd st pid buffer raw now).totalMessages =
      st.totalMessages + 1 ∧
    (processIncomingData processCmd st pid buffer raw now).peers.map Prod.fst =
      st.peers.map Prod.fst := by
  have hmain : processIncomingData processCmd st pid buffer raw now =
      updatePeerActivity st pid buffer.length now := by
    unfold processIncomingData
    rw [if_neg (by simp [hval]), if_neg hlen, hparse]
  refine ⟨hmain, ?_, ?_, ?_, ?_⟩ <;> rw [hmain] <;>
    simp [updatePeerActivity, mapUpdate_keys]

/-- C9 counterexample: a valid 13-byte packet whose command byte stream
`[0x06, 0x00]` throws inside `parseCommand` (a 4-byte read past the end)
leaves `totalErrors` at 0 — the decode error is not counted — while the
peer's message bookkeeping did run. -/
theorem photon_decode_error_not_counted_counterexample :
    parseAllCommands [6, 0] = none ∧
    validatePacketStructure [0xFB, 0x17, 0, 0, 0, 0, 0, 0, 0, 0, 0, 0, 1] = true ∧
    (processIncomingData (fun s _ _ => s) ⟨[(3, freshPeer 3)], [], 0, 0, 0⟩ 3
      [0xFB, 0x17, 0, 0, 0, 0, 0, 0, 0, 0, 0, 0, 1] [6, 0] 5).totalErrors = 0 ∧
    (processIncomingData (fun s _ _ => s) ⟨[(3, freshPeer 3)], [], 0, 0, 0⟩ 3
      [0xFB, 0x17, 0, 0, 0, 0, 0, 0, 0, 0, 0, 0, 1] [6, 0] 5).totalMessages = 1 :=
  ⟨rfl, rfl, rfl, rfl⟩

/-- C9 witness: the decode-error theorem applied at a concrete server
state, packet and failing command stream. -/
theorem photon_decode_error_swallowed_witness :
    (validatePacketStructure [0xFB, 0x17, 0, 0, 0, 0, 0, 0, 0, 0, 0, 0, 9] = true ∧
      ¬ ([0xFB, 0x17, 0, 0, 0, 0, 0, 0, 0, 0, 0, 0, 9] : List Nat).length - 12 = 0 ∧
      parseAllCommands [6, 0] = none) ∧
    (processIncomingData (fun s _ _ => s) ⟨[(5, freshPeer 5)], [], 2, 7, 0⟩ 5
      [0xFB, 0x17, 0, 0, 0, 0, 0, 0, 0, 0, 0, 0, 9] [6, 0] 9 =
      updatePeerActivity ⟨[(5, freshPeer 5)], [], 2, 7, 0⟩ 5
        ([0xFB, 0x17, 0, 0, 0, 0, 0, 0, 0, 0, 0, 0, 9] : List Nat).length 9 ∧
     (processIncomingData (fun s _ _ => s) ⟨[(5, freshPeer 5)], [], 2, 7, 0⟩ 5
      [0xFB, 0x17, 0, 0, 0, 0, 0, 0, 0, 0, 0, 0, 9] [6, 0] 9).totalErrors = 7 ∧
     (processIncomingData (fun s _ _ => s) ⟨[(5, freshPeer 5)], [], 2, 7, 0⟩ 5
      [0xFB, 0x17, 0, 0, 0, 0, 0, 0, 0, 0, 0, 0, 9] [6, 0] 9).rooms = [] ∧
     (processIncomingData (fun s _ _ => s) ⟨[(5, freshPeer 5)], [], 2, 7, 0⟩ 5
      [0xFB, 0x17, 0, 0, 0, 0, 0, 0, 0, 0, 0, 0, 9] [6, 0] 9).totalMessages = 2 + 1 ∧
     (processIncomingData (fun s _ _ => s) ⟨[(5, freshPeer 5)], [], 2, 7, 0⟩ 5
      [0xFB, 0x17, 0, 0, 0, 0, 0, 0, 0, 0, 0, 0, 9] [6, 0] 9).peers.map Prod.fst =
      ([(5, freshPeer 5)] : List (Nat × PeerSt)).map Prod.fst) :=
  ⟨⟨rfl, by decide, rfl⟩,
   photon_decode_error_swallowed (fun s _ _ => s) ⟨[(5, freshPeer 5)], [], 2, 7, 0⟩ 5
     [0xFB, 0x17, 0, 0, 0, 0, 0, 0, 0, 0, 0, 0, 9] [6, 0] 9 rfl (by decide) rfl⟩

end Photon
